import Mathlib

/-!
Verification of the `pix` low-level pixel-buffer library: a shallow embedding
of the data model (`Shape`, `Dims`), of the argument validator
`ValidateProcessArgs` (pix.go), and of the generic row-wise point-filter
engine `PointFilter.Process` (filters/point-filter.go), together with
theorems about them.

Modelling conventions:
- Go `int` / `int64` values are embedded as `Int` (the operations involved
  never overflow for the representable image geometries the claims range
  over, and the spec states its arithmetic over integers).
- Go `byte` is `Fin 256`; Go byte slices are `List Byte`.
- Go truncated integer division `/` is `Int.tdiv`.
- A Go `nil` slice or failed interface assertion is `Option`/`Bool`.
- Mutation of the destination buffer is modelled by threading the buffer
  value through the row loop; a Go slice-bounds panic is modelled as the
  `none` outcome of the engine.
-/

namespace Pix

set_option maxRecDepth 8192

abbrev Byte := Fin 256

/-- Go `type Shape int` (pix.go). Negative values can encode
application-defined shapes, so the carrier is all of `Int`. -/
abbrev Shape := Int

def shapeUndefined : Shape := 0
def ShapeRGB888 : Shape := 1
def ShapeRGBA8888 : Shape := 2
def ShapeRGB565BE : Shape := 3
def ShapeRGB555 : Shape := 4
def ShapeRGB444BE : Shape := 5
def ShapeGrayscale2bit : Shape := 6
def ShapeMonochrome : Shape := 7

/-- Embedding of `func (sh Shape) BitsPerPixel() (bits int)` (pix.go:73-93):
a switch with default `-1`. -/
def bitsPerPixel (sh : Shape) : Int :=
  if sh = ShapeRGBA8888 then 32
  else if sh = ShapeRGB888 then 24
  else if sh = ShapeGrayscale2bit then 2
  else if sh = ShapeMonochrome then 1
  else if sh = ShapeRGB444BE then 12
  else if sh = ShapeRGB555 then 15
  else if sh = ShapeRGB565BE then 16
  else -1

/-- Embedding of `type Dims struct` (pix.go:95-100). -/
structure Dims where
  Width : Int
  Height : Int
  Stride : Int
  Shape : Shape
  deriving DecidableEq, Repr

/-- Error values; the Go code returns distinct `errors.New` values, embedded
as a closed enumeration. `ioErr` carries the code of an underlying reader
error propagated by the engine. -/
inductive Err where
  | emptyImage
  | badPixelShape
  | strideTooSmall
  | negativeROI
  | roiExceedsBounds
  | emptyROI
  | inPlaceROI
  | inPlaceShapeMismatch
  | srcNotBuffered
  | nilBuffer
  | srcBufferTooSmall
  | dstTooSmall
  | nilPixelFunc
  | shapeMismatch
  | ioErr (code : Nat)
  deriving DecidableEq, Repr

/-- Embedding of `func (d Dims) Validate() error` (pix.go:102-112). -/
def Dims.Validate (d : Dims) : Option Err :=
  let pixbits := bitsPerPixel d.Shape
  if d.Height ≤ 0 ∨ d.Width ≤ 0 then some .emptyImage
  else if pixbits < 1 then some .badPixelShape
  else if (d.Width * pixbits + 7).tdiv 8 > d.Stride then some .strideTooSmall
  else none

/-- Embedding of `func (d Dims) NumPixels() int64` (pix.go:114-116). -/
def Dims.NumPixels (d : Dims) : Int := d.Height * d.Width

/-- Embedding of `func (d Dims) SizeRow() int` (pix.go:126-128). -/
def Dims.SizeRow (d : Dims) : Int := (d.Width * bitsPerPixel d.Shape + 7).tdiv 8

/-- Embedding of `func (d Dims) Size() int64` (pix.go:118-124). -/
def Dims.Size (d : Dims) : Int :=
  if d.Height = 0 ∨ d.Width = 0 then 0
  else (d.Height - 1) * d.Stride + d.SizeRow

/-- Embedding of `image.Rectangle` restricted to what pix uses. -/
structure Rect where
  MinX : Int
  MinY : Int
  MaxX : Int
  MaxY : Int
  deriving DecidableEq, Repr

def Rect.Dx (r : Rect) : Int := r.MaxX - r.MinX

def Rect.Dy (r : Rect) : Int := r.MaxY - r.MinY

/-- Go `image.Rectangle.Empty`: `r.Min.X >= r.Max.X || r.Min.Y >= r.Max.Y`. -/
def Rect.Empty (r : Rect) : Bool := r.MinX ≥ r.MaxX || r.MinY ≥ r.MaxY

/-- Embedding of the `Image`/`ImageBuffered` interfaces (pix.go:11-33) as a
deterministic record: `Dims` is the `Dims()` method, `buffered` records
whether the dynamic type implements `ImageBuffered`, `Buffer` is the
`Buffer()` result (`none` models a nil slice), and `ReadAt` maps a requested
length and offset to the bytes written into the caller's buffer together
with the returned error (`ReadAt p off` in Go returns `(n, err)` with the
first `n` bytes of `p` filled; here the returned list holds those bytes and
its length is `n`). -/
structure Image where
  Dims : Dims
  buffered : Bool
  Buffer : Option (List Byte)
  ReadAt : Nat → Int → List Byte × Option Err

/-- Result of `ValidateProcessArgs`: the returned destination slice
(`none` models a nil slice), the returned `srcDims`, and the returned
error. -/
structure VPAResult where
  dst : Option (List Byte)
  srcDims : Dims
  err : Option Err
  deriving DecidableEq, Repr

/-- Embedding of `func ValidateProcessArgs(dst []byte, dstShape Dims,
src Image, roi *image.Rectangle) ([]byte, Dims, error)` (pix.go:170-211).
The Go early-return chain is rendered as nested matches in the same
order: source-dims validation, ROI checks, required-size computation,
in-place dispatch for a nil dst, and the final destination-size check. -/
def ValidateProcessArgs (dst : Option (List Byte)) (dstShape : Dims)
    (src : Image) (roi : Option Rect) : VPAResult :=
  let srcDims := src.Dims
  match srcDims.Validate with
  | some e => ⟨none, srcDims, some e⟩
  | none =>
    let roiErr : Option Err :=
      match roi with
      | some r =>
        if r.MaxX < 0 ∨ r.MinX < 0 ∨ r.MinY < 0 ∨ r.MaxY < 0 then some .negativeROI
        else if r.MaxX > srcDims.Width ∨ r.MaxY > srcDims.Height then some .roiExceedsBounds
        else if r.Empty then some .emptyROI
        else none
      | none => none
    match roiErr with
    | some e => ⟨none, srcDims, some e⟩
    | none =>
      let requiredMinDstSize : Int :=
        match roi with
        | some r => dstShape.Stride * r.Dy
        | none => dstShape.Stride * dstShape.Height
      let dstR : Except Err (List Byte) :=
        match dst with
        | some d => .ok d
        | none =>
          if roi.isSome then .error .inPlaceROI
          else if dstShape.Shape ≠ srcDims.Shape then .error .inPlaceShapeMismatch
          else if ¬ src.buffered then .error .srcNotBuffered
          else
            match src.Buffer with
            | none => .error .nilBuffer
            | some buf =>
              if (buf.length : Int) < srcDims.Size then .error .srcBufferTooSmall
              else .ok buf
      match dstR with
      | .error e => ⟨none, srcDims, some e⟩
      | .ok d =>
        if (d.length : Int) < requiredMinDstSize then ⟨some d, srcDims, some .dstTooSmall⟩
        else ⟨some d, srcDims, none⟩

/-- Go slice expression `l[a:b]` on a slice with `cap = len`: defined when
`0 ≤ a ≤ b ≤ len l`, otherwise a runtime panic, modelled as `none`. -/
def goSlice (l : List Byte) (a b : Int) : Option (List Byte) :=
  if 0 ≤ a ∧ a ≤ b ∧ b ≤ (l.length : Int) then
    some ((l.drop a.toNat).take (b - a).toNat)
  else none

/-- Writing `repl` into `mem` starting at byte `start`: the effect of a Go
callback mutating the sub-slice `mem[start : start+len repl]` to hold
`repl`. -/
def setRegion (mem : List Byte) (start : Nat) (repl : List Byte) : List Byte :=
  mem.take start ++ repl ++ mem.drop (start + repl.length)

/-- Embedding of `type PointFilter struct` (filters/point-filter.go:20-25).
The `Fn` callback receives the destination row slice and the source row
slice and mutates the destination; it is embedded as a function from the
old destination-slice contents and the source-slice contents to the new
destination-slice contents (a Go `PointFunc` always preserves the slice
length; the contents it reads from the source slice are those at call
time). `none` models a nil function value. Controls are irrelevant to
`Process` and omitted. -/
structure PointFilter where
  In : Shape
  Out : Shape
  Fn : Option (List Byte → List Byte → List Byte)

/-- How the engine's row loop obtains source rows, resolved before the loop
(filters/point-filter.go:81-89): in-place aliasing of the destination
(nil `dst` argument), direct slicing of a resident buffer, or streaming
reads through `ReadAt` into the reusable scratch row buffer. -/
inductive SrcAccess where
  | inplace
  | direct (srcBuf : List Byte)
  | stream (ra : Nat → Int → List Byte × Option Err)

/-- The row loop of `PointFilter.Process` (filters/point-filter.go:91-113),
recursing on the number of remaining rows. State: current row index `y`,
current destination memory `mem`, current scratch row buffer `rowBuf`.
Result: `none` for a slice-bounds panic, otherwise the first read error
together with the destination memory at that point, or `(none, mem)` on
completion. In the `inplace` mode source rows are sliced from `mem`
itself, since there the Go `srcBuf` and `dst` are the same array. -/
def processRows (fn : List Byte → List Byte → List Byte) (acc : SrcAccess)
    (srcStride srcRowBytes srcStart srcEnd outStride startY : Int) :
    Nat → Int → List Byte → List Byte → Option (Option Err × List Byte)
  | 0, _, mem, _ => some (none, mem)
  | Nat.succ k, y, mem, rowBuf =>
    let srcRowStart := y * srcStride
    let read : Option (List Byte × List Byte × Option Err) :=
      match acc with
      | .inplace =>
        (goSlice mem srcRowStart (srcRowStart + srcRowBytes)).map (fun s => (s, rowBuf, none))
      | .direct srcBuf =>
        (goSlice srcBuf srcRowStart (srcRowStart + srcRowBytes)).map (fun s => (s, rowBuf, none))
      | .stream ra =>
        let r := ra srcRowBytes.toNat srcRowStart
        let dat := r.1.take srcRowBytes.toNat
        let rowBuf' := dat ++ rowBuf.drop dat.length
        some (rowBuf', rowBuf', r.2)
    match read with
    | none => none
    | some (srcRow, rowBuf', rerr) =>
      match rerr with
      | some e => some (some e, mem)
      | none =>
        let dstRowStart := (y - startY) * outStride
        match goSlice srcRow srcStart srcEnd,
            goSlice mem dstRowStart (dstRowStart + outStride) with
        | some srcSub, some dstOld =>
          processRows fn acc srcStride srcRowBytes srcStart srcEnd outStride startY
            k (y + 1) (setRegion mem dstRowStart.toNat (fn dstOld srcSub)) rowBuf'
        | _, _ => none

/-- The return-value assembly of the row loop's outcome: a panic stays a
panic, a read error is returned as the call's error, and completion
returns the output dims (filters/point-filter.go:100,115). -/
def finishRows (dstDims : Dims) (x : Option (Option Err × List Byte)) :
    Option (Except Err Dims × List Byte) :=
  match x with
  | none => none
  | some (some e, mem) => some (.error e, mem)
  | some (none, mem) => some (.ok dstDims, mem)

/-- The output `Dims` computed by `PointFilter.Process` before validation
(filters/point-filter.go:50-66). -/
def pfOutDims (f : PointFilter) (srcDims : Dims) (roi : Option Rect) : Dims :=
  let outBytesPerPixel := (bitsPerPixel f.Out + 7).tdiv 8
  match roi with
  | some r => ⟨r.Dx, r.Dy, r.Dx * outBytesPerPixel, f.Out⟩
  | none => ⟨srcDims.Width, srcDims.Height, srcDims.Width * outBytesPerPixel, f.Out⟩

/-- Embedding of `func (f *PointFilter) Process(dst []byte, src pix.Image,
roi *image.Rectangle) (pix.Dims, error)` (filters/point-filter.go:38-116).
The result is `none` for a slice-bounds panic inside the row loop,
otherwise the returned `(Dims, error)` pair (as an `Except`) together with
the final contents of the destination memory - the supplied `dst` buffer,
or for an in-place call the source's own buffer. Pre-loop error returns
leave that memory untouched. -/
def PointFilter.Process (f : PointFilter) (dst : Option (List Byte)) (src : Image)
    (roi : Option Rect) : Option (Except Err Dims × List Byte) :=
  let mem0 : List Byte :=
    match dst with
    | some d => d
    | none => ((if src.buffered then src.Buffer else none).getD [])
  match f.Fn with
  | none => some (.error .nilPixelFunc, mem0)
  | some fn =>
    let srcDims := src.Dims
    if srcDims.Shape ≠ f.In then some (.error .shapeMismatch, mem0)
    else
      let inBytesPerPixel := (bitsPerPixel f.In + 7).tdiv 8
      let dstDims := pfOutDims f srcDims roi
      let v := ValidateProcessArgs dst dstDims src roi
      match v.err with
      | some e => some (.error e, mem0)
      | none =>
        let d0 := v.dst.getD []
        let startX : Int := match roi with | some r => r.MinX | none => 0
        let startY : Int := match roi with | some r => r.MinY | none => 0
        let endX : Int := match roi with | some r => r.MaxX | none => srcDims.Width
        let endY : Int := match roi with | some r => r.MaxY | none => srcDims.Height
        let srcRowBytes := srcDims.SizeRow
        let rowBuf0 : List Byte := List.replicate srcRowBytes.toNat 0
        let acc : SrcAccess :=
          match dst with
          | none => .inplace
          | some _ =>
            if src.buffered then
              match src.Buffer with
              | some sb => .direct sb
              | none => .stream src.ReadAt
            else .stream src.ReadAt
        finishRows dstDims
          (processRows fn acc srcDims.Stride srcRowBytes
            (startX * inBytesPerPixel) (endX * inBytesPerPixel)
            dstDims.Stride startY (endY - startY).toNat startY d0 rowBuf0)

/-- Embedding of the `PointFunc` built by `NewInvertedPerPixel`
(filters/invert.go.go:10-14): for each `i < len src`, `dst[i] = 255 -
src[i]`; destination bytes beyond `len src` are left unchanged. -/
def invertFn (dstOld src : List Byte) : List Byte :=
  (src.map (fun v => 255 - v)) ++ dstOld.drop src.length

/-- Embedding of `func NewInvertedPerPixel() *PointFilter`
(filters/invert.go.go:6-16). -/
def NewInvertedPerPixel : PointFilter :=
  { In := ShapeRGB888, Out := ShapeRGB888, Fn := some invertFn }

/-- The `requiredMinDstSize` computed at pix.go:184-186. -/
def requiredMinDstSize (dstShape : Dims) (roi : Option Rect) : Int :=
  match roi with
  | some r => dstShape.Stride * r.Dy
  | none => dstShape.Stride * dstShape.Height

/-- The ROI conditions that pass the validator's checks (pix.go:177-183). -/
def ROIOk (sd : Dims) (roi : Option Rect) : Prop :=
  ∀ r ∈ roi, 0 ≤ r.MinX ∧ 0 ≤ r.MinY ∧ 0 ≤ r.MaxX ∧ 0 ≤ r.MaxY ∧
    r.MaxX ≤ sd.Width ∧ r.MaxY ≤ sd.Height ∧ r.MinX < r.MaxX ∧ r.MinY < r.MaxY

/-- A concrete buffered 2x2 RGB888 image used by the witnesses. -/
def wImg : Image :=
  { Dims := ⟨2, 2, 6, ShapeRGB888⟩
  , buffered := true
  , Buffer := some [10, 20, 30, 40, 50, 60, 70, 80, 90, 100, 110, 120]
  , ReadAt := fun _ _ => ([], some (.ioErr 0)) }

/-- A point filter with no transform configured. -/
def fNilFn : PointFilter := { In := ShapeRGB888, Out := ShapeRGB888, Fn := none }

/-- The loop start row computed by `Process` (filters/point-filter.go:74-79). -/
def loopStartY (roi : Option Rect) : Int :=
  match roi with
  | some r => r.MinY
  | none => 0

/-- The number of rows the `Process` loop executes. -/
def loopNumRows (sd : Dims) (roi : Option Rect) : Nat :=
  ((match roi with | some r => r.MaxY | none => sd.Height) - loopStartY roi).toNat

/-- The loop's exclusive X pixel bound (filters/point-filter.go:74-79). -/
def loopEndX (sd : Dims) (roi : Option Rect) : Int :=
  match roi with
  | some r => r.MaxX
  | none => sd.Width

/-- A Grayscale2bit identity point filter used by the C7 witness. -/
def fId2bit : PointFilter :=
  { In := ShapeGrayscale2bit, Out := ShapeGrayscale2bit, Fn := some (fun d _ => d) }

/-- A 3x1 Grayscale2bit (sub-byte bit depth) streamed image whose reads
always fail, used by the C7 witness. -/
def sImg2 : Image :=
  { Dims := ⟨3, 1, 1, ShapeGrayscale2bit⟩
  , buffered := false
  , Buffer := none
  , ReadAt := fun _ _ => ([], some (.ioErr 7)) }

/-- An RGB888 identity point filter used by witnesses. -/
def fId888 : PointFilter :=
  { In := ShapeRGB888, Out := ShapeRGB888, Fn := some (fun d _ => d) }

/-- An RGB444BE point filter used by the C6 counterexample. -/
def f444 : PointFilter :=
  { In := ShapeRGB444BE, Out := ShapeRGB444BE, Fn := some (fun d _ => d) }

/-- A 3x1 RGB444BE streamed image: its row size is 5 bytes but the engine
slices the X range up to `3 * ceil(12/8) = 6`, out of bounds. -/
def img444 : Image :=
  { Dims := ⟨3, 1, 5, ShapeRGB444BE⟩
  , buffered := false
  , Buffer := none
  , ReadAt := fun n _ => (List.replicate n 0, none) }

/-- An RGB555 point filter used by the C6 counterexample. -/
def f555 : PointFilter :=
  { In := ShapeRGB555, Out := ShapeRGB555, Fn := some (fun d _ => d) }

/-- An 8x1 RGB555 streamed image: its row size is 15 bytes but the engine
slices the X range up to `8 * ceil(15/8) = 16`, out of bounds. -/
def img555 : Image :=
  { Dims := ⟨8, 1, 15, ShapeRGB555⟩
  , buffered := false
  , Buffer := none
  , ReadAt := fun n _ => (List.replicate n 0, none) }

/-- A streamed image whose reads always fail, used by the C7 witness. -/
def sImg : Image :=
  { Dims := ⟨2, 2, 6, ShapeRGB888⟩
  , buffered := false
  , Buffer := none
  , ReadAt := fun _ _ => ([], some (.ioErr 7)) }

/-- Per-pixel row transform: `n` pixels of `inB` bytes each are mapped
through `g`, mirroring the per-pixel iteration convention of `PointFunc`
callbacks (filters/point-filter.go:12-15). -/
def pointMapN (g : List Byte → List Byte) (inB : Nat) : Nat → List Byte → List Byte
  | 0, _ => []
  | n + 1, s => g (s.take inB) ++ pointMapN g inB n (s.drop inB)

/-- The output region a caller extracts from a whole-image result to compare
with an ROI result: rows `startRow..startRow+numRows` restricted to byte
columns `[lo, hi)`. -/
def extractRegion (buf : List Byte) (rowLen lo hi startRow numRows : Nat) : List Byte :=
  ((List.range numRows).map (fun i =>
    (((buf.drop ((startRow + i) * rowLen)).take rowLen).drop lo).take (hi - lo))).flatten

/-- Concrete per-pixel map for the C4 witness: constant 3-byte output. -/
def c4g : List Byte → List Byte := fun _ => [42, 42, 42]

/-- Concrete `PointFunc` for the C4 witness, mapping every aligned pixel
slice through `c4g`. -/
def c4fn : List Byte → List Byte → List Byte :=
  fun _ s => pointMapN c4g 3 (s.length / 3) s

/-- Concrete filter for the C4 witness: RGB888 to RGB888. -/
def c4f : PointFilter := ⟨ShapeRGB888, ShapeRGB888, some c4fn⟩

/-- Concrete 2x2 RGB888 buffered source image for the C4 witness. -/
def c4src : Image := ⟨⟨2, 2, 6, ShapeRGB888⟩, true, some (List.replicate 12 0),
  fun _ _ => ([], none)⟩

/-- Concrete 1x1 region of interest for the C4 witness. -/
def c4r : Rect := ⟨0, 0, 1, 1⟩

/-- A valid 1x2 RGB888 image whose stride (4) exceeds its packed row size
(3), i.e. each row carries one padding byte. -/
def c5img : Image := ⟨⟨1, 2, 4, ShapeRGB888⟩, true, some [0, 0, 0, 9, 1, 2, 3],
  fun _ _ => ([], none)⟩

/-- The 2x2 packed RGB888 buffered image of the spec's concrete in-place
round-trip scenario. -/
def c5wimg : Image := ⟨⟨2, 2, 6, ShapeRGB888⟩, true,
  some [1, 2, 3, 4, 5, 6, 7, 8, 9, 10, 11, 12], fun _ _ => ([], none)⟩

/-- On success the validator returns the supplied destination, or for an
in-place call the source buffer. -/
lemma vpa_dst_eq (dst : Option (List Byte)) (dstShape : Dims) (src : Image)
    (roi : Option Rect)
    (h : (ValidateProcessArgs dst dstShape src roi).err = none) :
    (ValidateProcessArgs dst dstShape src roi).dst =
      (match dst with | some d0 => some d0 | none => src.Buffer) := by
  rcases hval : src.Dims.Validate with _ | e <;>
    rcases roi with _ | r <;>
      rcases dst with _ | d0 <;>
        rcases hb : src.Buffer with _ | b <;>
          simp only [ValidateProcessArgs, hval, hb, Option.isSome_some, Option.isSome_none] at h ⊢ <;>
            (try split_ifs at h ⊢) <;> (try simp_all) <;>
            (try split_ifs at h ⊢) <;> simp_all

/-- Necessary conditions for `ValidateProcessArgs` to succeed. -/
lemma vpa_ok_necessary (dst : Option (List Byte)) (dstShape : Dims) (src : Image)
    (roi : Option Rect)
    (h : (ValidateProcessArgs dst dstShape src roi).err = none) :
    src.Dims.Validate = none ∧ ROIOk src.Dims roi ∧
      (∀ d0, dst = some d0 → requiredMinDstSize dstShape roi ≤ (d0.length : Int)) ∧
      (dst = none → roi = none ∧ dstShape.Shape = src.Dims.Shape ∧ src.buffered = true ∧
        ∃ b, src.Buffer = some b ∧ src.Dims.Size ≤ (b.length : Int) ∧
          requiredMinDstSize dstShape roi ≤ (b.length : Int)) := by
  rcases hval : src.Dims.Validate with _ | e <;>
    rcases roi with _ | r <;>
      rcases dst with _ | d0 <;>
        rcases hb : src.Buffer with _ | b <;>
          simp only [ValidateProcessArgs, hval, hb, Option.isSome_some, Option.isSome_none,
            requiredMinDstSize, ROIOk, Rect.Empty, Rect.Dx, Rect.Dy, Bool.or_eq_true,
            decide_eq_true_eq] at h ⊢ <;>
            (try split_ifs at h ⊢) <;> (try simp_all) <;>
            (try split_ifs at h ⊢) <;> (try simp_all) <;> omega

/-- C1: with a source whose Dims validate, `ValidateProcessArgs` returns an
error whenever the ROI is empty, has a negative coordinate, or exceeds the
source bounds; whenever a supplied destination buffer is shorter than
`dstShape.Stride * roi.height` (or `dstShape.Stride * dstShape.Height`
without ROI); and whenever dst is nil (in-place) with a non-nil ROI, a
mismatched shape, a source that is not buffered, a nil exposed buffer, or
an exposed buffer smaller than the source's total readable size. -/
theorem claim_C1 (dst : Option (List Byte)) (dstShape : Dims) (src : Image)
    (roi : Option Rect)
    (hval : src.Dims.Validate = none)
    (hbad :
      (∃ r, roi = some r ∧
        (r.Empty = true ∨ r.MinX < 0 ∨ r.MinY < 0 ∨ r.MaxX < 0 ∨ r.MaxY < 0 ∨
          r.MaxX > src.Dims.Width ∨ r.MaxY > src.Dims.Height)) ∨
      (∃ d0, dst = some d0 ∧
        ((∃ r, roi = some r ∧ (d0.length : Int) < dstShape.Stride * r.Dy) ∨
          (roi = none ∧ (d0.length : Int) < dstShape.Stride * dstShape.Height))) ∨
      (dst = none ∧
        (roi ≠ none ∨ dstShape.Shape ≠ src.Dims.Shape ∨ src.buffered = false ∨
          src.Buffer = none ∨
          (∃ b, src.Buffer = some b ∧ (b.length : Int) < src.Dims.Size)))) :
    (ValidateProcessArgs dst dstShape src roi).err ≠ none := by
  intro h
  obtain ⟨-, hroi, hdst, hinp⟩ := vpa_ok_necessary dst dstShape src roi h
  rcases hbad with ⟨r, hr, hcase⟩ | ⟨d0, hd, hcase⟩ | ⟨hd, hcase⟩
  · subst hr
    have hok := hroi r rfl
    simp only [Rect.Empty, Bool.or_eq_true, decide_eq_true_eq] at hcase
    rcases hok with ⟨a1, a2, a3, a4, a5, a6, a7, a8⟩
    rcases hcase with (h9 | h9) | h9 | h9 | h9 | h9 | h9 | h9 <;> omega
  · subst hd
    have hlen := hdst d0 rfl
    rcases hcase with ⟨r, hr, hsm⟩ | ⟨hr, hsm⟩ <;> subst hr <;>
      simp only [requiredMinDstSize] at hlen <;> exact absurd hsm (not_lt.mpr hlen)
  · subst hd
    obtain ⟨hroiN, hsh, hbuf, b, hb, hsz, -⟩ := hinp rfl
    rcases hcase with h9 | h9 | h9 | h9 | ⟨b2, hb2, h9⟩
    · exact h9 hroiN
    · exact h9 hsh
    · rw [hbuf] at h9; simp at h9
    · rw [hb] at h9; exact Option.some_ne_none b h9
    · rw [hb] at hb2
      cases hb2
      exact absurd h9 (not_lt.mpr hsz)

/-- C1 witness: the theorem applied to an empty ROI on a concrete image. -/
theorem claim_C1_witness :
    (ValidateProcessArgs (some [1, 2, 3]) ⟨2, 2, 6, ShapeRGB888⟩ wImg
      (some ⟨0, 0, 0, 2⟩)).err ≠ none :=
  claim_C1 (some [1, 2, 3]) ⟨2, 2, 6, ShapeRGB888⟩ wImg (some ⟨0, 0, 0, 2⟩)
    (by decide) (Or.inl ⟨⟨0, 0, 0, 2⟩, rfl, by decide⟩)

/-- C3: when `ValidateProcessArgs` is called with a nil destination and
succeeds, the destination buffer it returns is exactly the slice obtained
from the source's `Buffer()` call - the source's entire buffer, not a copy
and not a sub-slice. -/
theorem claim_C3 (dstShape : Dims) (src : Image) (roi : Option Rect)
    (h : (ValidateProcessArgs none dstShape src roi).err = none) :
    (ValidateProcessArgs none dstShape src roi).dst = src.Buffer ∧
      src.Buffer.isSome = true := by
  have hd := vpa_dst_eq none dstShape src roi h
  obtain ⟨-, -, -, b, hb, -, -⟩ := (vpa_ok_necessary none dstShape src roi h).2.2.2 rfl
  exact ⟨hd, by rw [hb]; rfl⟩

/-- C3 witness: a successful in-place validation on a concrete image. -/
theorem claim_C3_witness :
    (ValidateProcessArgs none ⟨2, 2, 6, ShapeRGB888⟩ wImg none).err = none ∧
      ((ValidateProcessArgs none ⟨2, 2, 6, ShapeRGB888⟩ wImg none).dst = wImg.Buffer ∧
        wImg.Buffer.isSome = true) :=
  ⟨by decide, claim_C3 ⟨2, 2, 6, ShapeRGB888⟩ wImg none (by decide)⟩

/-- C10: when `PointFilter.Process` returns an error from the nil-transform
check, the input-shape-mismatch check, or from `ValidateProcessArgs`, the
supplied destination buffer is returned with its contents completely
unchanged, and the result does not depend on the transform function (the
right-hand sides are constant in `fn`), so the transform is never
invoked. -/
theorem claim_C10 (f : PointFilter) (d : List Byte) (src : Image) (roi : Option Rect) :
    (f.Fn = none → f.Process (some d) src roi = some (.error .nilPixelFunc, d)) ∧
    (∀ fn, f.Fn = some fn → src.Dims.Shape ≠ f.In →
      f.Process (some d) src roi = some (.error .shapeMismatch, d)) ∧
    (∀ fn e, f.Fn = some fn → src.Dims.Shape = f.In →
      (ValidateProcessArgs (some d) (pfOutDims f src.Dims roi) src roi).err = some e →
      f.Process (some d) src roi = some (.error e, d)) := by
  refine ⟨fun hFn => ?_, fun fn hFn hne => ?_, fun fn e hFn heq hv => ?_⟩
  · simp only [PointFilter.Process, hFn]
  · simp only [PointFilter.Process, hFn]
    rw [if_pos hne]
  · simp only [PointFilter.Process, hFn]
    rw [if_neg (fun hh => hh heq)]
    simp only [hv]

/-- C10 witness: the nil-transform case on concrete inputs. -/
theorem claim_C10_witness :
    fNilFn.Process (some [1, 2]) wImg none = some (.error .nilPixelFunc, [1, 2]) :=
  (claim_C10 fNilFn [1, 2] wImg none).1 rfl

lemma goSlice_nat (l : List Byte) (a b : Nat) (hab : a ≤ b) (hb : b ≤ l.length) :
    goSlice l (a : Int) (b : Int) = some ((l.drop a).take (b - a)) := by
  unfold goSlice
  rw [if_pos ⟨by positivity, by exact_mod_cast hab, by exact_mod_cast hb⟩]
  have h1 : ((a : Int)).toNat = a := Int.toNat_natCast a
  have h2 : ((b : Int) - (a : Int)).toNat = b - a := by omega
  rw [h1, h2]

lemma length_drop_take (l : List Byte) (a m : Nat) (h : a + m ≤ l.length) :
    ((l.drop a).take m).length = m := by
  simp only [List.length_take, List.length_drop]
  omega

lemma setRegion_length (mem repl : List Byte) (start : Nat)
    (h : start + repl.length ≤ mem.length) :
    (setRegion mem start repl).length = mem.length := by
  simp only [setRegion, List.length_append, List.length_take, List.length_drop]
  omega

lemma processRows_direct_eq
    (fn : List Byte → List Byte → List Byte) (sbuf : List Byte)
    (ss rb sa se OS sy : Nat)
    (hxe : sa ≤ se) (hse : se ≤ rb)
    (O : Nat → List Byte)
    (hO : ∀ y, y * ss + rb ≤ sbuf.length → (O y).length = OS)
    (hfn : ∀ y dOld, y * ss + rb ≤ sbuf.length → dOld.length = OS →
      fn dOld ((((sbuf.drop (y * ss)).take rb).drop sa).take (se - sa)) = O y) :
    ∀ (n d0 : Nat) (mem rowBuf : List Byte),
      (d0 + n) * OS ≤ mem.length →
      (∀ i, i < n → (sy + d0 + i) * ss + rb ≤ sbuf.length) →
      processRows fn (.direct sbuf) (ss : Int) (rb : Int) (sa : Int) (se : Int)
          (OS : Int) (sy : Int) n ((sy : Int) + (d0 : Int)) mem rowBuf
        = some (none, mem.take (d0 * OS)
            ++ ((List.range n).map (fun i => O (sy + d0 + i))).flatten
            ++ mem.drop ((d0 + n) * OS)) := by
  intro n
  induction n with
  | zero =>
    intro d0 mem rowBuf hmem hsrc
    simp only [processRows, List.range_zero, List.map_nil, List.flatten_nil, List.nil_append,
      List.append_nil, Nat.add_zero]
    rw [List.take_append_drop]
  | succ n ih =>
    intro d0 mem rowBuf hmem hsrc
    have hrow0 := hsrc 0 (Nat.succ_pos n)
    simp only [Nat.add_zero] at hrow0
    have hOSle : d0 * OS + OS ≤ mem.length := by
      calc d0 * OS + OS = (d0 + 1) * OS := by ring
        _ ≤ (d0 + (n + 1)) * OS := Nat.mul_le_mul_right OS (by omega)
        _ ≤ mem.length := hmem
    have htakeA : (mem.take (d0 * OS)).length = d0 * OS := by
      rw [List.length_take]
      omega
    -- source row read
    have hcast1 : ((sy : Int) + (d0 : Int)) * (ss : Int) = (((sy + d0) * ss : Nat) : Int) := by
      push_cast
      ring
    have hcast2 : ((sy : Int) + (d0 : Int)) * (ss : Int) + (rb : Int)
        = (((sy + d0) * ss + rb : Nat) : Int) := by
      push_cast
      ring
    have hread : goSlice sbuf (((sy : Int) + (d0 : Int)) * (ss : Int))
        (((sy : Int) + (d0 : Int)) * (ss : Int) + (rb : Int))
        = some ((sbuf.drop ((sy + d0) * ss)).take ((sy + d0) * ss + rb - (sy + d0) * ss)) := by
      rw [hcast2, hcast1]
      exact goSlice_nat sbuf ((sy + d0) * ss) ((sy + d0) * ss + rb) (by omega) hrow0
    have hidx : (sy + d0) * ss + rb - (sy + d0) * ss = rb := by omega
    rw [hidx] at hread
    have hsrcRowLen : ((sbuf.drop ((sy + d0) * ss)).take rb).length = rb :=
      length_drop_take sbuf ((sy + d0) * ss) rb hrow0
    -- x-range sub-slice of the row
    have hsub : goSlice ((sbuf.drop ((sy + d0) * ss)).take rb) (sa : Int) (se : Int)
        = some ((((sbuf.drop ((sy + d0) * ss)).take rb).drop sa).take (se - sa)) :=
      goSlice_nat _ sa se hxe (by omega)
    -- destination region
    have hcast3 : ((sy : Int) + (d0 : Int) - (sy : Int)) * (OS : Int)
        = ((d0 * OS : Nat) : Int) := by
      push_cast
      ring
    have hcast4 : ((sy : Int) + (d0 : Int) - (sy : Int)) * (OS : Int) + (OS : Int)
        = ((d0 * OS + OS : Nat) : Int) := by
      push_cast
      ring
    have hdst : goSlice mem (((sy : Int) + (d0 : Int) - (sy : Int)) * (OS : Int))
        (((sy : Int) + (d0 : Int) - (sy : Int)) * (OS : Int) + (OS : Int))
        = some ((mem.drop (d0 * OS)).take (d0 * OS + OS - d0 * OS)) := by
      rw [hcast4, hcast3]
      exact goSlice_nat mem (d0 * OS) (d0 * OS + OS) (by omega) hOSle
    have hidx2 : d0 * OS + OS - d0 * OS = OS := by omega
    rw [hidx2] at hdst
    have hdOldLen : ((mem.drop (d0 * OS)).take OS).length = OS :=
      length_drop_take mem (d0 * OS) OS hOSle
    have happly := hfn (sy + d0) _ hrow0 hdOldLen
    -- one unfolding step of the loop
    rw [show ((sy : Int) + (d0 : Int) - (sy : Int)) * (OS : Int) = ((d0 * OS : Nat) : Int)
      from hcast3] at hdst
    simp only [processRows, hread, Option.map_some', hsub, hcast3, hdst, happly,
      Int.toNat_natCast]
    -- now the goal is about the recursive call on the updated memory
    have hmem' : (setRegion mem (d0 * OS) (O (sy + d0))).length = mem.length :=
      setRegion_length mem (O (sy + d0)) (d0 * OS) (by rw [hO _ hrow0]; omega)
    have hcast5 : (sy : Int) + (d0 : Int) + 1 = (sy : Int) + ((d0 + 1 : Nat) : Int) := by
      push_cast
      ring
    have hIH := ih (d0 + 1) (setRegion mem (d0 * OS) (O (sy + d0))) rowBuf
      (by rw [hmem', show d0 + 1 + n = d0 + (n + 1) from by omega]; exact hmem)
      (fun i hi => by
        rw [show sy + (d0 + 1) + i = sy + d0 + (i + 1) from by omega]
        exact hsrc (i + 1) (by omega))
    rw [hcast5, hIH]
    have hO0 := hO (sy + d0) hrow0
    have htakeAlen : (List.take (d0 * OS) mem).length = d0 * OS := htakeA
    have E1 : (setRegion mem (d0 * OS) (O (sy + d0))).take ((d0 + 1) * OS)
        = mem.take (d0 * OS) ++ O (sy + d0) := by
      unfold setRegion
      rw [hO0, show (d0 + 1) * OS = d0 * OS + OS from by ring]
      set A := mem.take (d0 * OS) with hA
      rw [List.append_assoc, ← htakeA, List.take_append, ← hO0, List.take_left]
    have E3 : (setRegion mem (d0 * OS) (O (sy + d0))).drop ((d0 + 1 + n) * OS)
        = mem.drop ((d0 + (n + 1)) * OS) := by
      unfold setRegion
      rw [hO0]
      set A := mem.take (d0 * OS) with hA
      rw [List.append_assoc]
      rw [show (d0 + 1 + n) * OS = A.length + (OS + n * OS) from by rw [htakeA]; ring]
      rw [List.drop_append]
      rw [show OS + n * OS = (O (sy + d0)).length + n * OS from by rw [hO0]]
      rw [List.drop_append, List.drop_drop]
      congr 1
      ring
    have hmapEq : List.map (fun i => O (sy + (d0 + 1) + i)) (List.range n)
        = List.map ((fun i => O (sy + d0 + i)) ∘ Nat.succ) (List.range n) := by
      apply List.map_congr_left
      intro a _
      show O (sy + (d0 + 1) + a) = O (sy + d0 + Nat.succ a)
      exact congrArg O (by omega)
    simp only [Option.some.injEq, Prod.mk.injEq, true_and]
    rw [E1, E3, hmapEq, List.range_succ_eq_map, List.map_cons, List.flatten_cons,
      ← List.map_map]
    simp only [Nat.add_zero, List.append_assoc]

lemma setRegion_take_left (mem repl : List Byte) (s : Nat) (hs : s ≤ mem.length) :
    (setRegion mem s repl).take (s + repl.length) = mem.take s ++ repl := by
  have htakeA : (mem.take s).length = s := by rw [List.length_take]; omega
  unfold setRegion
  rw [List.append_assoc]
  set A := mem.take s with hA
  rw [← htakeA, List.take_append, List.take_left]

lemma setRegion_drop_ge (mem repl : List Byte) (s x : Nat) (hs : s ≤ mem.length)
    (hx : s + repl.length ≤ x) :
    (setRegion mem s repl).drop x = mem.drop x := by
  have htakeA : (mem.take s).length = s := by rw [List.length_take]; omega
  unfold setRegion
  rw [List.append_assoc]
  set A := mem.take s with hA
  rw [show x = A.length + (repl.length + (x - s - repl.length)) from by rw [htakeA]; omega]
  rw [List.drop_append, List.drop_append, List.drop_drop]
  congr 1
  omega

lemma processRows_inplace_eq
    (fn : List Byte → List Byte → List Byte) (L : Nat)
    (F : List Byte → List Byte)
    (hF : ∀ dOld s, dOld.length = L → s.length = L → fn dOld s = F s)
    (hFlen : ∀ s, s.length = L → (F s).length = L) :
    ∀ (n y0 : Nat) (mem rowBuf : List Byte),
      (y0 + n) * L ≤ mem.length →
      processRows fn .inplace (L : Int) (L : Int) (0 : Int) (L : Int) (L : Int) (0 : Int)
          n (y0 : Int) mem rowBuf
        = some (none, mem.take (y0 * L)
            ++ ((List.range n).map (fun i => F ((mem.drop ((y0 + i) * L)).take L))).flatten
            ++ mem.drop ((y0 + n) * L)) := by
  intro n
  induction n with
  | zero =>
    intro y0 mem rowBuf hmem
    simp only [processRows, List.range_zero, List.map_nil, List.flatten_nil, List.nil_append,
      List.append_nil, Nat.add_zero]
    rw [List.take_append_drop]
  | succ n ih =>
    intro y0 mem rowBuf hmem
    have hLle : y0 * L + L ≤ mem.length := by
      calc y0 * L + L = (y0 + 1) * L := by ring
        _ ≤ (y0 + (n + 1)) * L := Nat.mul_le_mul_right L (by omega)
        _ ≤ mem.length := hmem
    have hcast1 : (y0 : Int) * (L : Int) = ((y0 * L : Nat) : Int) := by push_cast; ring
    have hcast2 : (y0 : Int) * (L : Int) + (L : Int) = ((y0 * L + L : Nat) : Int) := by
      push_cast; ring
    have hread : goSlice mem ((y0 : Int) * (L : Int)) ((y0 : Int) * (L : Int) + (L : Int))
        = some ((mem.drop (y0 * L)).take (y0 * L + L - y0 * L)) := by
      rw [hcast2, hcast1]
      exact goSlice_nat mem (y0 * L) (y0 * L + L) (by omega) hLle
    rw [show y0 * L + L - y0 * L = L from by omega] at hread
    have hrowLen : ((mem.drop (y0 * L)).take L).length = L := length_drop_take mem (y0 * L) L hLle
    have hsub := goSlice_nat ((mem.drop (y0 * L)).take L) 0 L (by omega) (by omega)
    push_cast at hsub
    have hsubeq : ((((mem.drop (y0 * L)).take L).drop 0).take (L - 0))
        = (mem.drop (y0 * L)).take L := by
      rw [List.drop_zero, Nat.sub_zero]
      exact List.take_of_length_le (by omega)
    rw [hsubeq] at hsub
    have hcast3 : ((y0 : Int) - (0 : Int)) * (L : Int) = ((y0 * L : Nat) : Int) := by
      push_cast; ring
    have hcast4 : ((y0 : Int) - (0 : Int)) * (L : Int) + (L : Int) = ((y0 * L + L : Nat) : Int) := by
      push_cast; ring
    have hdst : goSlice mem (((y0 : Int) - (0 : Int)) * (L : Int))
        (((y0 : Int) - (0 : Int)) * (L : Int) + (L : Int))
        = some ((mem.drop (y0 * L)).take L) := by
      rw [hcast4, hcast3]
      have := goSlice_nat mem (y0 * L) (y0 * L + L) (by omega) hLle
      rw [show y0 * L + L - y0 * L = L from by omega] at this
      exact this
    have happly := hF ((mem.drop (y0 * L)).take L) ((mem.drop (y0 * L)).take L) hrowLen hrowLen
    have hFlen0 : (F ((mem.drop (y0 * L)).take L)).length = L := hFlen _ hrowLen
    rw [show ((y0 : Int) - (0 : Int)) * (L : Int) = ((y0 * L : Nat) : Int) from hcast3] at hdst
    simp only [processRows, hread, Option.map_some', hsub, hcast3, hdst, happly,
      Int.toNat_natCast]
    have hmem' : (setRegion mem (y0 * L) (F ((mem.drop (y0 * L)).take L))).length = mem.length :=
      setRegion_length mem _ (y0 * L) (by rw [hFlen0]; omega)
    have hcast5 : (y0 : Int) + 1 = ((y0 + 1 : Nat) : Int) := by push_cast; ring
    have hIH := ih (y0 + 1) (setRegion mem (y0 * L) (F ((mem.drop (y0 * L)).take L))) rowBuf
      (by rw [hmem', show y0 + 1 + n = y0 + (n + 1) from by omega]; exact hmem)
    rw [hcast5, hIH]
    simp only [Option.some.injEq, Prod.mk.injEq, true_and]
    have hsetTake : (setRegion mem (y0 * L) (F ((mem.drop (y0 * L)).take L))).take ((y0 + 1) * L)
        = mem.take (y0 * L) ++ F ((mem.drop (y0 * L)).take L) := by
      rw [show (y0 + 1) * L = y0 * L + (F ((mem.drop (y0 * L)).take L)).length from by
        rw [hFlen0]; ring]
      exact setRegion_take_left mem _ (y0 * L) (by omega)
    have hsetDropTail : (setRegion mem (y0 * L) (F ((mem.drop (y0 * L)).take L))).drop
        ((y0 + 1 + n) * L) = mem.drop ((y0 + (n + 1)) * L) := by
      rw [setRegion_drop_ge mem _ (y0 * L) ((y0 + 1 + n) * L) (by omega) (by
        rw [hFlen0]
        calc y0 * L + L = (y0 + 1) * L := by ring
          _ ≤ (y0 + 1 + n) * L := Nat.mul_le_mul_right L (by omega))]
      congr 1
      ring
    have hmapEq : List.map (fun i =>
          F (((setRegion mem (y0 * L) (F ((mem.drop (y0 * L)).take L))).drop
            ((y0 + 1 + i) * L)).take L)) (List.range n)
        = List.map ((fun i => F ((mem.drop ((y0 + i) * L)).take L)) ∘ Nat.succ) (List.range n) := by
      apply List.map_congr_left
      intro a _
      show F (((setRegion mem (y0 * L) (F ((mem.drop (y0 * L)).take L))).drop
          ((y0 + 1 + a) * L)).take L)
        = F ((mem.drop ((y0 + Nat.succ a) * L)).take L)
      have hdropEq : (setRegion mem (y0 * L) (F ((mem.drop (y0 * L)).take L))).drop
          ((y0 + 1 + a) * L) = mem.drop ((y0 + 1 + a) * L) := by
        apply setRegion_drop_ge mem _ (y0 * L) ((y0 + 1 + a) * L) (by omega)
        rw [hFlen0]
        calc y0 * L + L = (y0 + 1) * L := by ring
          _ ≤ (y0 + 1 + a) * L := Nat.mul_le_mul_right L (by omega)
      rw [hdropEq, show y0 + 1 + a = y0 + Nat.succ a from by omega]
    rw [hsetTake, hsetDropTail, hmapEq, List.range_succ_eq_map, List.map_cons,
      List.flatten_cons, ← List.map_map]
    simp only [Nat.add_zero, List.append_assoc]

lemma processRows_direct_isSome
    (fn : List Byte → List Byte → List Byte) (sbuf : List Byte)
    (ss rb sa se OS sy : Nat)
    (hxe : sa ≤ se) (hse : se ≤ rb)
    (hfn : ∀ d s, (fn d s).length = d.length) :
    ∀ (n d0 : Nat) (mem rowBuf : List Byte),
      (d0 + n) * OS ≤ mem.length →
      (∀ i, i < n → (sy + d0 + i) * ss + rb ≤ sbuf.length) →
      (processRows fn (.direct sbuf) (ss : Int) (rb : Int) (sa : Int) (se : Int)
          (OS : Int) (sy : Int) n ((sy : Int) + (d0 : Int)) mem rowBuf).isSome := by
  intro n
  induction n with
  | zero =>
    intro d0 mem rowBuf hmem hsrc
    simp [processRows]
  | succ n ih =>
    intro d0 mem rowBuf hmem hsrc
    have hrow0 := hsrc 0 (Nat.succ_pos n)
    simp only [Nat.add_zero] at hrow0
    have hOSle : d0 * OS + OS ≤ mem.length := by
      calc d0 * OS + OS = (d0 + 1) * OS := by ring
        _ ≤ (d0 + (n + 1)) * OS := Nat.mul_le_mul_right OS (by omega)
        _ ≤ mem.length := hmem
    have hcast1 : ((sy : Int) + (d0 : Int)) * (ss : Int) = (((sy + d0) * ss : Nat) : Int) := by
      push_cast; ring
    have hcast2 : ((sy : Int) + (d0 : Int)) * (ss : Int) + (rb : Int)
        = (((sy + d0) * ss + rb : Nat) : Int) := by push_cast; ring
    have hread : goSlice sbuf (((sy : Int) + (d0 : Int)) * (ss : Int))
        (((sy : Int) + (d0 : Int)) * (ss : Int) + (rb : Int))
        = some ((sbuf.drop ((sy + d0) * ss)).take ((sy + d0) * ss + rb - (sy + d0) * ss)) := by
      rw [hcast2, hcast1]
      exact goSlice_nat sbuf ((sy + d0) * ss) ((sy + d0) * ss + rb) (by omega) hrow0
    rw [show (sy + d0) * ss + rb - (sy + d0) * ss = rb from by omega] at hread
    have hsrcRowLen : ((sbuf.drop ((sy + d0) * ss)).take rb).length = rb :=
      length_drop_take sbuf ((sy + d0) * ss) rb hrow0
    have hsub : goSlice ((sbuf.drop ((sy + d0) * ss)).take rb) (sa : Int) (se : Int)
        = some ((((sbuf.drop ((sy + d0) * ss)).take rb).drop sa).take (se - sa)) :=
      goSlice_nat _ sa se hxe (by omega)
    have hcast3 : ((sy : Int) + (d0 : Int) - (sy : Int)) * (OS : Int)
        = ((d0 * OS : Nat) : Int) := by push_cast; ring
    have hcast4 : ((sy : Int) + (d0 : Int) - (sy : Int)) * (OS : Int) + (OS : Int)
        = ((d0 * OS + OS : Nat) : Int) := by push_cast; ring
    have hdst : goSlice mem (((sy : Int) + (d0 : Int) - (sy : Int)) * (OS : Int))
        (((sy : Int) + (d0 : Int) - (sy : Int)) * (OS : Int) + (OS : Int))
        = some ((mem.drop (d0 * OS)).take (d0 * OS + OS - d0 * OS)) := by
      rw [hcast4, hcast3]
      exact goSlice_nat mem (d0 * OS) (d0 * OS + OS) (by omega) hOSle
    rw [show d0 * OS + OS - d0 * OS = OS from by omega] at hdst
    have hdOldLen : ((mem.drop (d0 * OS)).take OS).length = OS :=
      length_drop_take mem (d0 * OS) OS hOSle
    rw [show ((sy : Int) + (d0 : Int) - (sy : Int)) * (OS : Int) = ((d0 * OS : Nat) : Int)
      from hcast3] at hdst
    simp only [processRows, hread, Option.map_some', hsub, hcast3, hdst, Int.toNat_natCast]
    have hmem' : (setRegion mem (d0 * OS)
        (fn ((mem.drop (d0 * OS)).take OS)
          ((((sbuf.drop ((sy + d0) * ss)).take rb).drop sa).take (se - sa)))).length
        = mem.length := by
      apply setRegion_length
      rw [hfn, hdOldLen]
      omega
    have hcast5 : (sy : Int) + (d0 : Int) + 1 = (sy : Int) + ((d0 + 1 : Nat) : Int) := by
      push_cast; ring
    rw [hcast5]
    exact ih (d0 + 1) _ rowBuf
      (by rw [hmem', show d0 + 1 + n = d0 + (n + 1) from by omega]; exact hmem)
      (fun i hi => by
        rw [show sy + (d0 + 1) + i = sy + d0 + (i + 1) from by omega]
        exact hsrc (i + 1) (by omega))

lemma processRows_inplace_isSome
    (fn : List Byte → List Byte → List Byte)
    (ss rb sa se OS sy : Nat)
    (hxe : sa ≤ se) (hse : se ≤ rb)
    (hfn : ∀ d s, (fn d s).length = d.length) :
    ∀ (n d0 : Nat) (mem rowBuf : List Byte),
      (d0 + n) * OS ≤ mem.length →
      (∀ i, i < n → (sy + d0 + i) * ss + rb ≤ mem.length) →
      (processRows fn .inplace (ss : Int) (rb : Int) (sa : Int) (se : Int)
          (OS : Int) (sy : Int) n ((sy : Int) + (d0 : Int)) mem rowBuf).isSome := by
  intro n
  induction n with
  | zero =>
    intro d0 mem rowBuf hmem hsrc
    simp [processRows]
  | succ n ih =>
    intro d0 mem rowBuf hmem hsrc
    have hrow0 := hsrc 0 (Nat.succ_pos n)
    simp only [Nat.add_zero] at hrow0
    have hOSle : d0 * OS + OS ≤ mem.length := by
      calc d0 * OS + OS = (d0 + 1) * OS := by ring
        _ ≤ (d0 + (n + 1)) * OS := Nat.mul_le_mul_right OS (by omega)
        _ ≤ mem.length := hmem
    have hcast1 : ((sy : Int) + (d0 : Int)) * (ss : Int) = (((sy + d0) * ss : Nat) : Int) := by
      push_cast; ring
    have hcast2 : ((sy : Int) + (d0 : Int)) * (ss : Int) + (rb : Int)
        = (((sy + d0) * ss + rb : Nat) : Int) := by push_cast; ring
    have hread : goSlice mem (((sy : Int) + (d0 : Int)) * (ss : Int))
        (((sy : Int) + (d0 : Int)) * (ss : Int) + (rb : Int))
        = some ((mem.drop ((sy + d0) * ss)).take ((sy + d0) * ss + rb - (sy + d0) * ss)) := by
      rw [hcast2, hcast1]
      exact goSlice_nat mem ((sy + d0) * ss) ((sy + d0) * ss + rb) (by omega) hrow0
    rw [show (sy + d0) * ss + rb - (sy + d0) * ss = rb from by omega] at hread
    have hsrcRowLen : ((mem.drop ((sy + d0) * ss)).take rb).length = rb :=
      length_drop_take mem ((sy + d0) * ss) rb hrow0
    have hsub : goSlice ((mem.drop ((sy + d0) * ss)).take rb) (sa : Int) (se : Int)
        = some ((((mem.drop ((sy + d0) * ss)).take rb).drop sa).take (se - sa)) :=
      goSlice_nat _ sa se hxe (by omega)
    have hcast3 : ((sy : Int) + (d0 : Int) - (sy : Int)) * (OS : Int)
        = ((d0 * OS : Nat) : Int) := by push_cast; ring
    have hcast4 : ((sy : Int) + (d0 : Int) - (sy : Int)) * (OS : Int) + (OS : Int)
        = ((d0 * OS + OS : Nat) : Int) := by push_cast; ring
    have hdst : goSlice mem (((sy : Int) + (d0 : Int) - (sy : Int)) * (OS : Int))
        (((sy : Int) + (d0 : Int) - (sy : Int)) * (OS : Int) + (OS : Int))
        = some ((mem.drop (d0 * OS)).take (d0 * OS + OS - d0 * OS)) := by
      rw [hcast4, hcast3]
      exact goSlice_nat mem (d0 * OS) (d0 * OS + OS) (by omega) hOSle
    rw [show d0 * OS + OS - d0 * OS = OS from by omega] at hdst
    have hdOldLen : ((mem.drop (d0 * OS)).take OS).length = OS :=
      length_drop_take mem (d0 * OS) OS hOSle
    rw [show ((sy : Int) + (d0 : Int) - (sy : Int)) * (OS : Int) = ((d0 * OS : Nat) : Int)
      from hcast3] at hdst
    simp only [processRows, hread, Option.map_some', hsub, hcast3, hdst, Int.toNat_natCast]
    have hmem' : (setRegion mem (d0 * OS)
        (fn ((mem.drop (d0 * OS)).take OS)
          ((((mem.drop ((sy + d0) * ss)).take rb).drop sa).take (se - sa)))).length
        = mem.length := by
      apply setRegion_length
      rw [hfn, hdOldLen]
      omega
    have hcast5 : (sy : Int) + (d0 : Int) + 1 = (sy : Int) + ((d0 + 1 : Nat) : Int) := by
      push_cast; ring
    rw [hcast5]
    exact ih (d0 + 1) _ rowBuf
      (by rw [hmem', show d0 + 1 + n = d0 + (n + 1) from by omega]; exact hmem)
      (fun i hi => by
        rw [hmem', show sy + (d0 + 1) + i = sy + d0 + (i + 1) from by omega]
        exact hsrc (i + 1) (by omega))

lemma processRows_stream_isSome
    (fn : List Byte → List Byte → List Byte)
    (ra : Nat → Int → List Byte × Option Err)
    (ss rb sa se OS sy : Nat)
    (hxe : sa ≤ se) (hse : se ≤ rb)
    (hfn : ∀ d s, (fn d s).length = d.length) :
    ∀ (n d0 : Nat) (mem rowBuf : List Byte),
      rowBuf.length = rb →
      (d0 + n) * OS ≤ mem.length →
      (processRows fn (.stream ra) (ss : Int) (rb : Int) (sa : Int) (se : Int)
          (OS : Int) (sy : Int) n ((sy : Int) + (d0 : Int)) mem rowBuf).isSome := by
  intro n
  induction n with
  | zero =>
    intro d0 mem rowBuf hrb hmem
    simp [processRows]
  | succ n ih =>
    intro d0 mem rowBuf hrb hmem
    have hOSle : d0 * OS + OS ≤ mem.length := by
      calc d0 * OS + OS = (d0 + 1) * OS := by ring
        _ ≤ (d0 + (n + 1)) * OS := Nat.mul_le_mul_right OS (by omega)
        _ ≤ mem.length := hmem
    simp only [processRows]
    set dat := (ra ((rb : Int)).toNat (((sy : Int) + (d0 : Int)) * (ss : Int))).1.take
      ((rb : Int)).toNat with hdat
    have hdatLen : dat.length ≤ rb := by
      rw [hdat]
      simp only [List.length_take, Int.toNat_natCast]
      omega
    have hrowBufLen : (dat ++ rowBuf.drop dat.length).length = rb := by
      simp only [List.length_append, List.length_drop]
      omega
    rcases hr : (ra ((rb : Int)).toNat (((sy : Int) + (d0 : Int)) * (ss : Int))).2 with _ | e
    · -- read succeeded: continue into the row body
      have hsub : goSlice (dat ++ rowBuf.drop dat.length) (sa : Int) (se : Int)
          = some (((dat ++ rowBuf.drop dat.length).drop sa).take (se - sa)) :=
        goSlice_nat _ sa se hxe (by omega)
      have hcast3 : ((sy : Int) + (d0 : Int) - (sy : Int)) * (OS : Int)
          = ((d0 * OS : Nat) : Int) := by push_cast; ring
      have hcast4 : ((sy : Int) + (d0 : Int) - (sy : Int)) * (OS : Int) + (OS : Int)
          = ((d0 * OS + OS : Nat) : Int) := by push_cast; ring
      have hdst : goSlice mem (((sy : Int) + (d0 : Int) - (sy : Int)) * (OS : Int))
          (((sy : Int) + (d0 : Int) - (sy : Int)) * (OS : Int) + (OS : Int))
          = some ((mem.drop (d0 * OS)).take (d0 * OS + OS - d0 * OS)) := by
        rw [hcast4, hcast3]
        exact goSlice_nat mem (d0 * OS) (d0 * OS + OS) (by omega) hOSle
      rw [show d0 * OS + OS - d0 * OS = OS from by omega] at hdst
      have hdOldLen : ((mem.drop (d0 * OS)).take OS).length = OS :=
        length_drop_take mem (d0 * OS) OS hOSle
      rw [show ((sy : Int) + (d0 : Int) - (sy : Int)) * (OS : Int) = ((d0 * OS : Nat) : Int)
        from hcast3] at hdst
      simp only [hr, hsub, hcast3, hdst, Int.toNat_natCast]
      have hmem' : (setRegion mem (d0 * OS)
          (fn ((mem.drop (d0 * OS)).take OS)
            (((dat ++ rowBuf.drop dat.length).drop sa).take (se - sa)))).length
          = mem.length := by
        apply setRegion_length
        rw [hfn, hdOldLen]
        omega
      have hcast5 : (sy : Int) + (d0 : Int) + 1 = (sy : Int) + ((d0 + 1 : Nat) : Int) := by
        push_cast; ring
      rw [hcast5]
      exact ih (d0 + 1) _ _ hrowBufLen
        (by rw [hmem', show d0 + 1 + n = d0 + (n + 1) from by omega]; exact hmem)
    · simp only [hr]
      simp

lemma processRows_stream_err
    (fn : List Byte → List Byte → List Byte)
    (ra : Nat → Int → List Byte × Option Err)
    (ss rb sa se OS sy : Nat)
    (hxe : sa ≤ se) (hse : se ≤ rb)
    (hfn : ∀ d s, (fn d s).length = d.length) (e : Err) :
    ∀ (k n d0 : Nat) (mem rowBuf : List Byte),
      k < n →
      rowBuf.length = rb →
      (d0 + n) * OS ≤ mem.length →
      (∀ i, i < k → (ra rb (((sy + d0 + i) * ss : Nat) : Int)).2 = none) →
      (ra rb (((sy + d0 + k) * ss : Nat) : Int)).2 = some e →
      ∃ mem', processRows fn (.stream ra) (ss : Int) (rb : Int) (sa : Int) (se : Int)
          (OS : Int) (sy : Int) n ((sy : Int) + (d0 : Int)) mem rowBuf
        = some (some e, mem') := by
  intro k
  induction k with
  | zero =>
    intro n d0 mem rowBuf hkn hrb hmem hprev hk
    rcases n with _ | m
    · omega
    simp only [Nat.add_zero] at hk
    have hoff : ((sy : Int) + (d0 : Int)) * (ss : Int) = (((sy + d0) * ss : Nat) : Int) := by
      push_cast; ring
    refine ⟨mem, ?_⟩
    simp only [processRows, hoff, Int.toNat_natCast, hk]
  | succ k ih =>
    intro n d0 mem rowBuf hkn hrb hmem hprev hk
    rcases n with _ | m
    · omega
    have hOSle : d0 * OS + OS ≤ mem.length := by
      calc d0 * OS + OS = (d0 + 1) * OS := by ring
        _ ≤ (d0 + (m + 1)) * OS := Nat.mul_le_mul_right OS (by omega)
        _ ≤ mem.length := hmem
    have hoff : ((sy : Int) + (d0 : Int)) * (ss : Int) = (((sy + d0) * ss : Nat) : Int) := by
      push_cast; ring
    have hr0 : (ra rb (((sy + d0) * ss : Nat) : Int)).2 = none := by
      have := hprev 0 (Nat.succ_pos k)
      simpa using this
    simp only [processRows, hoff, Int.toNat_natCast, hr0]
    set dat := (ra rb ((((sy + d0) * ss : Nat)) : Int)).1.take rb with hdat
    have hdatLen : dat.length ≤ rb := by
      rw [hdat]
      simp only [List.length_take]
      omega
    have hrowBufLen : (dat ++ rowBuf.drop dat.length).length = rb := by
      simp only [List.length_append, List.length_drop]
      omega
    have hsub : goSlice (dat ++ rowBuf.drop dat.length) (sa : Int) (se : Int)
        = some (((dat ++ rowBuf.drop dat.length).drop sa).take (se - sa)) :=
      goSlice_nat _ sa se hxe (by omega)
    have hcast3 : ((sy : Int) + (d0 : Int) - (sy : Int)) * (OS : Int)
        = ((d0 * OS : Nat) : Int) := by push_cast; ring
    have hcast4 : ((sy : Int) + (d0 : Int) - (sy : Int)) * (OS : Int) + (OS : Int)
        = ((d0 * OS + OS : Nat) : Int) := by push_cast; ring
    have hdst : goSlice mem (((sy : Int) + (d0 : Int) - (sy : Int)) * (OS : Int))
        (((sy : Int) + (d0 : Int) - (sy : Int)) * (OS : Int) + (OS : Int))
        = some ((mem.drop (d0 * OS)).take (d0 * OS + OS - d0 * OS)) := by
      rw [hcast4, hcast3]
      exact goSlice_nat mem (d0 * OS) (d0 * OS + OS) (by omega) hOSle
    rw [show d0 * OS + OS - d0 * OS = OS from by omega] at hdst
    have hdOldLen : ((mem.drop (d0 * OS)).take OS).length = OS :=
      length_drop_take mem (d0 * OS) OS hOSle
    rw [show ((sy : Int) + (d0 : Int) - (sy : Int)) * (OS : Int) = ((d0 * OS : Nat) : Int)
      from hcast3] at hdst
    simp only [hsub, hcast3, hdst, Int.toNat_natCast]
    have hmem' : (setRegion mem (d0 * OS)
        (fn ((mem.drop (d0 * OS)).take OS)
          (((dat ++ rowBuf.drop dat.length).drop sa).take (se - sa)))).length
        = mem.length := by
      apply setRegion_length
      rw [hfn, hdOldLen]
      omega
    have hcast5 : (sy : Int) + (d0 : Int) + 1 = (sy : Int) + ((d0 + 1 : Nat) : Int) := by
      push_cast; ring
    rw [hcast5]
    exact ih m (d0 + 1) _ _ (by omega) hrowBufLen
      (by rw [hmem', show d0 + 1 + m = d0 + (m + 1) from by omega]; exact hmem)
      (fun i hi => by
        rw [show sy + (d0 + 1) + i = sy + d0 + (i + 1) from by omega]
        exact hprev (i + 1) (by omega))
      (by rw [show sy + (d0 + 1) + k = sy + d0 + (k + 1) from by omega]; exact hk)

lemma processRows_isSome_int
    (fn : List Byte → List Byte → List Byte) (acc : SrcAccess)
    (ss rb sa se OS sy : Int) (n : Nat) (mem rowBuf : List Byte)
    (hss : 0 ≤ ss) (hsa : 0 ≤ sa) (hxe : sa ≤ se) (hse : se ≤ rb)
    (hOS : 0 ≤ OS) (hsy : 0 ≤ sy)
    (hfn : ∀ d s, (fn d s).length = d.length)
    (hmem : (n : Int) * OS ≤ (mem.length : Int))
    (hacc : match acc with
      | .inplace => ∀ i : Nat, i < n → (sy + i) * ss + rb ≤ (mem.length : Int)
      | .direct sb => ∀ i : Nat, i < n → (sy + i) * ss + rb ≤ (sb.length : Int)
      | .stream _ => rowBuf.length = rb.toNat) :
    (processRows fn acc ss rb sa se OS sy n sy mem rowBuf).isSome := by
  have hrb : 0 ≤ rb := le_trans (le_trans hsa hxe) hse
  have hss' : ss = ((ss.toNat : Nat) : Int) := (Int.toNat_of_nonneg hss).symm
  have hrb' : rb = ((rb.toNat : Nat) : Int) := (Int.toNat_of_nonneg hrb).symm
  have hsa' : sa = ((sa.toNat : Nat) : Int) := (Int.toNat_of_nonneg hsa).symm
  have hse' : se = ((se.toNat : Nat) : Int) := (Int.toNat_of_nonneg (le_trans hsa hxe)).symm
  have hOS' : OS = ((OS.toNat : Nat) : Int) := (Int.toNat_of_nonneg hOS).symm
  have hsy' : sy = ((sy.toNat : Nat) : Int) := (Int.toNat_of_nonneg hsy).symm
  have hy0 : sy = ((sy.toNat : Nat) : Int) + ((0 : Nat) : Int) := by
    rw [← hsy']
    simp
  have hmemN : (0 + n) * OS.toNat ≤ mem.length := by
    have hcast : (((0 + n) * OS.toNat : Nat) : Int) = (n : Int) * OS := by
      push_cast [Int.toNat_of_nonneg hOS]
      ring
    omega
  rcases acc with _ | sb | ra
  · rw [hy0]
    nth_rewrite 1 [hss', hrb', hsa', hse', hOS']
    nth_rewrite 1 [hsy']
    apply processRows_inplace_isSome fn ss.toNat rb.toNat sa.toNat se.toNat OS.toNat sy.toNat
      (by omega) (by omega) hfn n 0 mem rowBuf hmemN
    intro i hi
    have hI := hacc i hi
    have hcastL : (((sy.toNat + 0 + i) * ss.toNat + rb.toNat : Nat) : Int)
        = (sy + (i : Int)) * ss + rb := by
      push_cast [Int.toNat_of_nonneg hss, Int.toNat_of_nonneg hrb, Int.toNat_of_nonneg hsy]
      ring
    omega
  · rw [hy0]
    nth_rewrite 1 [hss', hrb', hsa', hse', hOS']
    nth_rewrite 1 [hsy']
    apply processRows_direct_isSome fn sb ss.toNat rb.toNat sa.toNat se.toNat OS.toNat sy.toNat
      (by omega) (by omega) hfn n 0 mem rowBuf hmemN
    intro i hi
    have hI := hacc i hi
    have hcastL : (((sy.toNat + 0 + i) * ss.toNat + rb.toNat : Nat) : Int)
        = (sy + (i : Int)) * ss + rb := by
      push_cast [Int.toNat_of_nonneg hss, Int.toNat_of_nonneg hrb, Int.toNat_of_nonneg hsy]
      ring
    omega
  · rw [hy0]
    nth_rewrite 1 [hss', hrb', hsa', hse', hOS']
    nth_rewrite 1 [hsy']
    exact processRows_stream_isSome fn ra ss.toNat rb.toNat sa.toNat se.toNat OS.toNat sy.toNat
      (by omega) (by omega) hfn n 0 mem rowBuf hacc hmemN

lemma validate_none_iff (d : Dims) :
    d.Validate = none ↔
      (0 < d.Width ∧ 0 < d.Height ∧ 1 ≤ bitsPerPixel d.Shape ∧
        d.Width * bitsPerPixel d.Shape ≤ d.Stride * 8) := by
  unfold Dims.Validate
  by_cases h1 : d.Height ≤ 0 ∨ d.Width ≤ 0
  · rw [if_pos h1]
    simp only [reduceCtorEq, false_iff]
    rintro ⟨c1, c2, -, -⟩
    omega
  · rw [if_neg h1]
    by_cases h2 : bitsPerPixel d.Shape < 1
    · rw [if_pos h2]
      simp only [reduceCtorEq, false_iff]
      rintro ⟨-, -, c3, -⟩
      omega
    · rw [if_neg h2]
      have hp : 0 < d.Width * bitsPerPixel d.Shape := mul_pos (by omega) (by omega)
      rw [show (d.Width * bitsPerPixel d.Shape + 7).tdiv 8 =
          (d.Width * bitsPerPixel d.Shape + 7) / 8 from Int.tdiv_eq_ediv (by omega) (by omega)]
      by_cases h3 : (d.Width * bitsPerPixel d.Shape + 7) / 8 > d.Stride
      · rw [if_pos h3]
        simp only [reduceCtorEq, false_iff]
        rintro ⟨-, -, -, c4⟩
        generalize hg : d.Width * bitsPerPixel d.Shape = p at hp h3 c4
        omega
      · rw [if_neg h3]
        simp only [true_iff]
        refine ⟨by omega, by omega, by omega, ?_⟩
        generalize hg : d.Width * bitsPerPixel d.Shape = p at hp h3
        omega

lemma bitsPerPixel_ge (sh : Shape) : -1 ≤ bitsPerPixel sh := by
  unfold bitsPerPixel
  repeat' split
  all_goals omega

lemma outBpp_nonneg (sh : Shape) : 0 ≤ (bitsPerPixel sh + 7).tdiv 8 := by
  have h := bitsPerPixel_ge sh
  rw [Int.tdiv_eq_ediv (by omega) (by omega)]
  omega

lemma validate_stride_pos (d : Dims) (h : d.Validate = none) : 0 < d.Stride := by
  obtain ⟨hW, hH, hb, hs⟩ := (validate_none_iff d).mp h
  nlinarith

lemma size_eq (d : Dims) (h : d.Validate = none) :
    d.Size = (d.Height - 1) * d.Stride + d.SizeRow := by
  obtain ⟨hW, hH, hb, hs⟩ := (validate_none_iff d).mp h
  unfold Dims.Size
  rw [if_neg (by omega)]

lemma finishRows_isSome (dstDims : Dims) (x : Option (Option Err × List Byte))
    (hx : x.isSome) : (finishRows dstDims x).isSome := by
  rcases x with _ | ⟨e?, mem⟩
  · simp at hx
  · rcases e? with _ | e <;> simp [finishRows]

lemma processRows_stream_err_int
    (fn : List Byte → List Byte → List Byte)
    (ra : Nat → Int → List Byte × Option Err)
    (ss rb sa se OS sy : Int) (n k : Nat) (mem rowBuf : List Byte) (e : Err)
    (hss : 0 ≤ ss) (hsa : 0 ≤ sa) (hxe : sa ≤ se) (hse : se ≤ rb)
    (hOS : 0 ≤ OS) (hsy : 0 ≤ sy)
    (hfn : ∀ d s, (fn d s).length = d.length)
    (hrbl : rowBuf.length = rb.toNat)
    (hmem : (n : Int) * OS ≤ (mem.length : Int))
    (hkn : k < n)
    (hprev : ∀ i : Nat, i < k → (ra rb.toNat ((sy + (i : Int)) * ss)).2 = none)
    (hk : (ra rb.toNat ((sy + (k : Int)) * ss)).2 = some e) :
    ∃ mem', processRows fn (.stream ra) ss rb sa se OS sy n sy mem rowBuf
      = some (some e, mem') := by
  have hrb : 0 ≤ rb := le_trans (le_trans hsa hxe) hse
  have hss' : ss = ((ss.toNat : Nat) : Int) := (Int.toNat_of_nonneg hss).symm
  have hrb' : rb = ((rb.toNat : Nat) : Int) := (Int.toNat_of_nonneg hrb).symm
  have hsa' : sa = ((sa.toNat : Nat) : Int) := (Int.toNat_of_nonneg hsa).symm
  have hse' : se = ((se.toNat : Nat) : Int) := (Int.toNat_of_nonneg (le_trans hsa hxe)).symm
  have hOS' : OS = ((OS.toNat : Nat) : Int) := (Int.toNat_of_nonneg hOS).symm
  have hsy' : sy = ((sy.toNat : Nat) : Int) := (Int.toNat_of_nonneg hsy).symm
  have hy0 : sy = ((sy.toNat : Nat) : Int) + ((0 : Nat) : Int) := by
    rw [← hsy']
    simp
  have hmemN : (0 + n) * OS.toNat ≤ mem.length := by
    have hcast : (((0 + n) * OS.toNat : Nat) : Int) = (n : Int) * OS := by
      push_cast [Int.toNat_of_nonneg hOS]
      ring
    omega
  have hoff : ∀ i : Nat, (((sy.toNat + 0 + i) * ss.toNat : Nat) : Int) = (sy + (i : Int)) * ss := by
    intro i
    push_cast [Int.toNat_of_nonneg hss, Int.toNat_of_nonneg hsy]
    ring
  rw [hy0]
  nth_rewrite 1 [hss', hrb', hsa', hse', hOS']
  nth_rewrite 1 [hsy']
  apply processRows_stream_err fn ra ss.toNat rb.toNat sa.toNat se.toNat OS.toNat sy.toNat
    (by omega) (by omega) hfn e k n 0 mem rowBuf hkn hrbl hmemN
  · intro i hi
    rw [hoff i]
    exact hprev i hi
  · rw [hoff k]
    exact hk

lemma finish_err_exists (dd : Dims) (x : Option (Option Err × List Byte)) (e : Err)
    (P : Prop) (hP : P) (hx : ∃ mem', x = some (some e, mem')) :
    ∃ mem, P ∧ finishRows dd x = some (.error e, mem) := by
  obtain ⟨mem', hm⟩ := hx
  exact ⟨mem', hP, by rw [hm]; rfl⟩

lemma processRows_stream_err0 (fn : List Byte → List Byte → List Byte)
    (ra : Nat → Int → List Byte × Option Err)
    (ss rb sa se OS sy : Int) (n : Nat) (mem rowBuf : List Byte) (e : Err)
    (hk : (ra rb.toNat (sy * ss)).2 = some e) :
    processRows fn (.stream ra) ss rb sa se OS sy (n + 1) sy mem rowBuf
      = some (some e, mem) := by
  simp only [processRows, hk]

/-- C7: when the source does not provide a direct buffer (not buffered, or
`Buffer()` nil) and its `ReadAt` obeys the positional-read contract (a read
returning fewer bytes than requested signals an error), then if the k-th
row read returns fewer than `rowSizeBytes` bytes or returns an error -
all earlier row reads having succeeded, and, when k > 0, those earlier
rows' X sub-slices being in bounds so that the loop actually reaches the
k-th read - the whole `Process` call aborts and returns that read's
error; a short row read is never silently accepted. The first row's read
(k = 0) is covered for every shape, including sub-byte ones. -/
theorem claim_C7 (f : PointFilter) (fn : List Byte → List Byte → List Byte)
    (src : Image) (d : List Byte) (roi : Option Rect) (k : Nat)
    (hFn : f.Fn = some fn)
    (hfn' : ∀ dd s, (fn dd s).length = dd.length)
    (hsh : src.Dims.Shape = f.In)
    (hnb : src.buffered = false ∨ src.Buffer = none)
    (hfit : 0 < k →
      loopEndX src.Dims roi * ((bitsPerPixel f.In + 7).tdiv 8) ≤ src.Dims.SizeRow)
    (hcontract : ∀ len off, (src.ReadAt len off).2 = none →
      (src.ReadAt len off).1.length = len)
    (hv : (ValidateProcessArgs (some d) (pfOutDims f src.Dims roi) src roi).err = none)
    (hkn : k < loopNumRows src.Dims roi)
    (hprev : ∀ i : Nat, i < k →
      (src.ReadAt src.Dims.SizeRow.toNat ((loopStartY roi + (i : Int)) * src.Dims.Stride)).2
        = none)
    (hbad : (src.ReadAt src.Dims.SizeRow.toNat
          ((loopStartY roi + (k : Int)) * src.Dims.Stride)).1.length < src.Dims.SizeRow.toNat ∨
      (src.ReadAt src.Dims.SizeRow.toNat
          ((loopStartY roi + (k : Int)) * src.Dims.Stride)).2 ≠ none) :
    ∃ e mem,
      (src.ReadAt src.Dims.SizeRow.toNat
          ((loopStartY roi + (k : Int)) * src.Dims.Stride)).2 = some e ∧
        f.Process (some d) src roi = some (.error e, mem) := by
  have hde : ∃ e, (src.ReadAt src.Dims.SizeRow.toNat
      ((loopStartY roi + (k : Int)) * src.Dims.Stride)).2 = some e := by
    rcases hbad with hshort | herr
    · rcases he : (src.ReadAt src.Dims.SizeRow.toNat
          ((loopStartY roi + (k : Int)) * src.Dims.Stride)).2 with _ | e
      · have := hcontract _ _ he
        omega
      · exact ⟨e, rfl⟩
    · rcases he : (src.ReadAt src.Dims.SizeRow.toNat
          ((loopStartY roi + (k : Int)) * src.Dims.Stride)).2 with _ | e
      · exact absurd he herr
      · exact ⟨e, rfl⟩
  obtain ⟨e, he⟩ := hde
  refine ⟨e, ?_⟩
  obtain ⟨hval, hroi, hdlen, hinp⟩ := vpa_ok_necessary _ _ _ _ hv
  have hdst := vpa_dst_eq _ _ _ _ hv
  obtain ⟨hW, hH, hbits, hstr⟩ := (validate_none_iff src.Dims).mp hval
  have hSpos : 0 < src.Dims.Stride := validate_stride_pos src.Dims hval
  have hibIn : 0 ≤ (bitsPerPixel f.In + 7).tdiv 8 := outBpp_nonneg f.In
  have houtB : 0 ≤ (bitsPerPixel f.Out + 7).tdiv 8 := outBpp_nonneg f.Out
  have hlen := hdlen d rfl
  simp only [PointFilter.Process, hFn]
  rw [if_neg (by simp [hsh])]
  simp only [hv, hdst, Option.getD_some]
  have hmode : (if src.buffered = true then
        (match src.Buffer with
          | some sb => SrcAccess.direct sb
          | none => SrcAccess.stream src.ReadAt)
        else SrcAccess.stream src.ReadAt) = SrcAccess.stream src.ReadAt := by
    rcases hnb with hbf | hB
    · rw [if_neg (by simp [hbf])]
    · rcases hbf : src.buffered with _ | _
      · rw [if_neg (by simp [hbf])]
      · rw [if_pos (by simp [hbf]), hB]
  rw [hmode]
  rcases Nat.eq_zero_or_pos k with hk0 | hkpos
  · subst hk0
    apply finish_err_exists _ _ e _ he
    rw [show loopStartY roi + ((0 : Nat) : Int) = loopStartY roi from by push_cast; ring] at he
    refine ⟨d, ?_⟩
    rcases roi with _ | rr <;>
      simp only [loopStartY] at he <;>
        simp only [loopNumRows, loopStartY] at hkn <;> (try dsimp only)
    · obtain ⟨n, hn⟩ : ∃ n, (src.Dims.Height - 0).toNat = n + 1 :=
        ⟨(src.Dims.Height - 0).toNat - 1, by omega⟩
      rw [hn]
      exact processRows_stream_err0 fn src.ReadAt _ _ _ _ _ _ n _ _ e he
    · obtain ⟨n, hn⟩ : ∃ n, (rr.MaxY - rr.MinY).toNat = n + 1 :=
        ⟨(rr.MaxY - rr.MinY).toNat - 1, by omega⟩
      rw [hn]
      exact processRows_stream_err0 fn src.ReadAt _ _ _ _ _ _ n _ _ e he
  apply finish_err_exists _ _ e _ he
  apply processRows_stream_err_int fn src.ReadAt _ _ _ _ _ _ _ k
  · exact le_of_lt hSpos
  · rcases roi with _ | r <;> (try dsimp only)
    · simp
    · have h := hroi r rfl
      exact mul_nonneg (by omega) hibIn
  · rcases roi with _ | r <;> (try dsimp only)
    · exact mul_le_mul_of_nonneg_right (by omega) hibIn
    · have h := hroi r rfl
      exact mul_le_mul_of_nonneg_right (by omega) hibIn
  · have h := hfit hkpos
    simp only [loopEndX] at h
    rcases roi with _ | r <;> (try dsimp only) <;> (try dsimp only at h) <;> exact h
  · simp only [pfOutDims]
    rcases roi with _ | r <;> (try dsimp only)
    · positivity
    · have h := hroi r rfl
      have : (0:Int) ≤ r.Dx := by unfold Rect.Dx; omega
      positivity
  · rcases roi with _ | r <;> (try dsimp only)
    · omega
    · have h := hroi r rfl
      omega
  · exact hfn'
  · simp only [List.length_replicate]
  · simp only [pfOutDims, requiredMinDstSize] at hlen ⊢
    rcases roi with _ | r <;> (try dsimp only)
    · rw [show src.Dims.Height - 0 = src.Dims.Height from by ring,
        Int.toNat_of_nonneg (by omega : (0:Int) ≤ src.Dims.Height)]
      calc src.Dims.Height * (src.Dims.Width * ((bitsPerPixel f.Out + 7).tdiv 8))
          = src.Dims.Width * ((bitsPerPixel f.Out + 7).tdiv 8) * src.Dims.Height := by ring
        _ ≤ (d.length : Int) := hlen
    · have h := hroi r rfl
      rw [show r.MaxY - r.MinY = r.Dy from rfl,
        Int.toNat_of_nonneg (by unfold Rect.Dy; omega : (0:Int) ≤ r.Dy)]
      calc r.Dy * (r.Dx * ((bitsPerPixel f.Out + 7).tdiv 8))
          = r.Dx * ((bitsPerPixel f.Out + 7).tdiv 8) * r.Dy := by ring
        _ ≤ (d.length : Int) := hlen
  · -- k < n
    rcases roi with _ | r <;>
      simp only [loopNumRows, loopStartY] at hkn <;> (try dsimp only at hkn ⊢) <;> exact hkn
  · -- previous reads fine
    intro i hi
    have := hprev i hi
    rcases roi with _ | r <;> simp only [loopStartY] at this <;> (try dsimp only) <;> exact this
  · -- the k-th read errors
    rcases roi with _ | r <;> simp only [loopStartY] at he <;> (try dsimp only) <;> exact he

/-- C6 (amended): for every shape whose bit depth is a positive multiple of
8 (RGB888, RGBA8888, RGB565BE - excluding the 12-bit RGB444BE and 15-bit
RGB555 shapes, for which the engine's X-range sub-slice can exceed the row
size), every source whose resident buffer is at least the total readable
size, and every argument combination with a length-preserving transform:
`PointFilter.Process` either returns a `Dims` or returns an error; every
slice index it computes stays within bounds, so the call never aborts
uncontrolledly (never returns the panic outcome `none`). -/
theorem claim_C6_amended (f : PointFilter) (src : Image) (dst : Option (List Byte))
    (roi : Option Rect)
    (hfnlen : ∀ fn, f.Fn = some fn → ∀ d s, (fn d s).length = d.length)
    (hdiv : (8 : Int) ∣ bitsPerPixel src.Dims.Shape)
    (hbuf : ∀ b, src.Buffer = some b → src.Dims.Size ≤ (b.length : Int)) :
    (f.Process dst src roi).isSome := by
  rcases hFn : f.Fn with _ | fn
  · simp [PointFilter.Process, hFn]
  by_cases hsh : src.Dims.Shape ≠ f.In
  · simp only [PointFilter.Process, hFn]
    rw [if_pos hsh]
    simp
  push_neg at hsh
  rcases hv : (ValidateProcessArgs dst (pfOutDims f src.Dims roi) src roi).err with _ | e
  case' neg.some =>
    simp only [PointFilter.Process, hFn]
    rw [if_neg (by simp [hsh])]
    simp only [hv]
    simp
  obtain ⟨hval, hroi, hdlen, hinp⟩ := vpa_ok_necessary _ _ _ _ hv
  have hdst := vpa_dst_eq _ _ _ _ hv
  obtain ⟨hW, hH, hbits, hstr⟩ := (validate_none_iff src.Dims).mp hval
  have hSpos : 0 < src.Dims.Stride := validate_stride_pos src.Dims hval
  obtain ⟨m, hm⟩ := hdiv
  have hm1 : 1 ≤ m := by omega
  have hfn' := hfnlen fn hFn
  have hinB : (bitsPerPixel f.In + 7).tdiv 8 = m := by
    rw [← hsh, hm, Int.tdiv_eq_ediv (by omega) (by omega)]
    omega
  have hrowB : src.Dims.SizeRow = src.Dims.Width * m := by
    unfold Dims.SizeRow
    rw [hm]
    have h0 : 0 < src.Dims.Width * (8 * m) := mul_pos hW (by omega)
    rw [Int.tdiv_eq_ediv (by omega) (by omega)]
    rw [show src.Dims.Width * (8 * m) = 8 * (src.Dims.Width * m) from by ring]
    generalize src.Dims.Width * m = p at *
    omega
  have houtB : 0 ≤ (bitsPerPixel f.Out + 7).tdiv 8 := outBpp_nonneg f.Out
  have hsize : src.Dims.Size = (src.Dims.Height - 1) * src.Dims.Stride + src.Dims.Width * m := by
    rw [size_eq src.Dims hval, hrowB]
  have hrowbound : ∀ (L : Int), src.Dims.Size ≤ L →
      ∀ (sy : Int), 0 ≤ sy → ∀ i : Nat, sy + (i : Int) ≤ src.Dims.Height - 1 →
      (sy + (i : Int)) * src.Dims.Stride + src.Dims.SizeRow ≤ L := by
    intro L hL sy hsy i hi
    rw [hrowB]
    have h1 : (sy + (i : Int)) * src.Dims.Stride ≤ (src.Dims.Height - 1) * src.Dims.Stride :=
      mul_le_mul_of_nonneg_right hi (le_of_lt hSpos)
    omega
  rcases dst with _ | d0buf
  · -- in-place
    obtain ⟨hroiN, hshape2, hbft, b, hb, hsz, hreq⟩ := hinp rfl
    subst hroiN
    simp only [PointFilter.Process, hFn]
    rw [if_neg (by simp [hsh])]
    simp only [hv, hdst, hb, Option.getD_some]
    apply finishRows_isSome
    apply processRows_isSome_int
    · exact le_of_lt hSpos
    · rw [hinB]
      positivity
    · rw [hinB]
      have : (0 : Int) ≤ src.Dims.Width := by omega
      nlinarith
    · rw [hinB, hrowB]
    · simp only [pfOutDims]
      positivity
    · omega
    · exact hfn'
    · -- (n : Int) * OS ≤ len b
      simp only [pfOutDims] at hreq ⊢
      simp only [requiredMinDstSize] at hreq
      rw [show src.Dims.Height - 0 = src.Dims.Height from by ring,
        Int.toNat_of_nonneg (by omega : (0:Int) ≤ src.Dims.Height)]
      calc (src.Dims.Height) * (src.Dims.Width * ((bitsPerPixel f.Out + 7).tdiv 8))
          = src.Dims.Width * ((bitsPerPixel f.Out + 7).tdiv 8) * src.Dims.Height := by ring
        _ ≤ (b.length : Int) := hreq
    · -- row bounds, inplace
      intro i hi
      apply hrowbound _ hsz 0 le_rfl
      rw [show src.Dims.Height - 0 = src.Dims.Height from by ring] at hi
      have : (i : Int) < src.Dims.Height := by
        have := hi
        omega
      omega
  · -- dst supplied
    have hlen := hdlen d0buf rfl
    simp only [PointFilter.Process, hFn]
    rw [if_neg (by simp [hsh])]
    simp only [hv, hdst, Option.getD_some]
    apply finishRows_isSome
    -- common facts about the roi-dependent quantities
    have hroiF : ∀ r ∈ roi, 0 ≤ r.MinX ∧ 0 ≤ r.MinY ∧ 0 ≤ r.MaxX ∧ 0 ≤ r.MaxY ∧
        r.MaxX ≤ src.Dims.Width ∧ r.MaxY ≤ src.Dims.Height ∧ r.MinX < r.MaxX ∧
        r.MinY < r.MaxY := hroi
    by_cases hbft : src.buffered
    · rcases hB : src.Buffer with _ | sb
      · -- buffered but no resident buffer: streaming
        rw [if_pos hbft]
        simp only [hB]
        apply processRows_isSome_int
        · exact le_of_lt hSpos
        ·
          rw [hinB]
          rcases roi with _ | r <;> (try dsimp only)
          · positivity
          · have := hroiF r rfl
            have : (0:Int) ≤ r.MinX := this.1
            positivity
        ·
          rw [hinB]
          rcases roi with _ | r <;> (try dsimp only)
          · have : (0:Int) ≤ src.Dims.Width := by omega
            nlinarith
          · have h := hroiF r rfl
            exact mul_le_mul_of_nonneg_right (by omega) (by omega)
        ·
          rw [hinB, hrowB]
          rcases roi with _ | r <;> (try dsimp only)
          · exact le_rfl
          · have h := hroiF r rfl
            exact mul_le_mul_of_nonneg_right (by omega) (by omega)
        ·
          simp only [pfOutDims]
          rcases roi with _ | r <;> (try dsimp only)
          · positivity
          · have h := hroiF r rfl
            have : (0:Int) ≤ r.Dx := by unfold Rect.Dx; omega
            positivity
        ·
          rcases roi with _ | r <;> (try dsimp only)
          · omega
          · have h := hroiF r rfl
            omega
        · exact hfn'
        ·
          simp only [pfOutDims, requiredMinDstSize] at hlen ⊢
          rcases roi with _ | r <;> (try dsimp only)
          · rw [show src.Dims.Height - 0 = src.Dims.Height from by ring,
              Int.toNat_of_nonneg (by omega : (0:Int) ≤ src.Dims.Height)]
            calc src.Dims.Height * (src.Dims.Width * ((bitsPerPixel f.Out + 7).tdiv 8))
                = src.Dims.Width * ((bitsPerPixel f.Out + 7).tdiv 8) * src.Dims.Height := by
                  ring
              _ ≤ (d0buf.length : Int) := hlen
          · have h := hroiF r rfl
            rw [show r.MaxY - r.MinY = r.Dy from rfl,
              Int.toNat_of_nonneg (by unfold Rect.Dy; omega : (0:Int) ≤ r.Dy)]
            calc r.Dy * (r.Dx * ((bitsPerPixel f.Out + 7).tdiv 8))
                = r.Dx * ((bitsPerPixel f.Out + 7).tdiv 8) * r.Dy := by ring
              _ ≤ (d0buf.length : Int) := hlen
        ·
          simp only [List.length_replicate]
      · -- direct buffer
        rw [if_pos hbft]
        simp only [hB]
        apply processRows_isSome_int
        · exact le_of_lt hSpos
        ·
          rw [hinB]
          rcases roi with _ | r <;> (try dsimp only)
          · positivity
          · have h := hroiF r rfl
            have : (0:Int) ≤ r.MinX := h.1
            positivity
        ·
          rw [hinB]
          rcases roi with _ | r <;> (try dsimp only)
          · have : (0:Int) ≤ src.Dims.Width := by omega
            nlinarith
          · have h := hroiF r rfl
            exact mul_le_mul_of_nonneg_right (by omega) (by omega)
        ·
          rw [hinB, hrowB]
          rcases roi with _ | r <;> (try dsimp only)
          · exact le_rfl
          · have h := hroiF r rfl
            exact mul_le_mul_of_nonneg_right (by omega) (by omega)
        ·
          simp only [pfOutDims]
          rcases roi with _ | r <;> (try dsimp only)
          · positivity
          · have h := hroiF r rfl
            have : (0:Int) ≤ r.Dx := by unfold Rect.Dx; omega
            positivity
        ·
          rcases roi with _ | r <;> (try dsimp only)
          · omega
          · have h := hroiF r rfl
            omega
        · exact hfn'
        ·
          simp only [pfOutDims, requiredMinDstSize] at hlen ⊢
          rcases roi with _ | r <;> (try dsimp only)
          · rw [show src.Dims.Height - 0 = src.Dims.Height from by ring,
              Int.toNat_of_nonneg (by omega : (0:Int) ≤ src.Dims.Height)]
            calc src.Dims.Height * (src.Dims.Width * ((bitsPerPixel f.Out + 7).tdiv 8))
                = src.Dims.Width * ((bitsPerPixel f.Out + 7).tdiv 8) * src.Dims.Height := by
                  ring
              _ ≤ (d0buf.length : Int) := hlen
          · have h := hroiF r rfl
            rw [show r.MaxY - r.MinY = r.Dy from rfl,
              Int.toNat_of_nonneg (by unfold Rect.Dy; omega : (0:Int) ≤ r.Dy)]
            calc r.Dy * (r.Dx * ((bitsPerPixel f.Out + 7).tdiv 8))
                = r.Dx * ((bitsPerPixel f.Out + 7).tdiv 8) * r.Dy := by ring
              _ ≤ (d0buf.length : Int) := hlen
        ·
          intro i hi
          have hsbig := hbuf sb hB
          rcases roi with _ | r <;> (try dsimp only)
          · apply hrowbound _ hsbig 0 le_rfl
            rw [show src.Dims.Height - 0 = src.Dims.Height from by ring] at hi
            omega
          · have h := hroiF r rfl
            apply hrowbound _ hsbig r.MinY (by omega)
            have : (i : Int) < r.MaxY - r.MinY := by
              have h2 := hi
              rw [show r.MaxY - r.MinY = r.Dy from rfl] at *
              unfold Rect.Dy at *
              omega
            omega
    · -- not buffered: streaming
      rw [if_neg hbft]
      apply processRows_isSome_int
      · exact le_of_lt hSpos
      ·
        rw [hinB]
        rcases roi with _ | r <;> (try dsimp only)
        · positivity
        · have h := hroiF r rfl
          have : (0:Int) ≤ r.MinX := h.1
          positivity
      ·
        rw [hinB]
        rcases roi with _ | r <;> (try dsimp only)
        · have : (0:Int) ≤ src.Dims.Width := by omega
          nlinarith
        · have h := hroiF r rfl
          exact mul_le_mul_of_nonneg_right (by omega) (by omega)
      ·
        rw [hinB, hrowB]
        rcases roi with _ | r <;> (try dsimp only)
        · exact le_rfl
        · have h := hroiF r rfl
          exact mul_le_mul_of_nonneg_right (by omega) (by omega)
      ·
        simp only [pfOutDims]
        rcases roi with _ | r <;> (try dsimp only)
        · positivity
        · have h := hroiF r rfl
          have : (0:Int) ≤ r.Dx := by unfold Rect.Dx; omega
          positivity
      ·
        rcases roi with _ | r <;> (try dsimp only)
        · omega
        · have h := hroiF r rfl
          omega
      · exact hfn'
      ·
        simp only [pfOutDims, requiredMinDstSize] at hlen ⊢
        rcases roi with _ | r <;> (try dsimp only)
        · rw [show src.Dims.Height - 0 = src.Dims.Height from by ring,
            Int.toNat_of_nonneg (by omega : (0:Int) ≤ src.Dims.Height)]
          calc src.Dims.Height * (src.Dims.Width * ((bitsPerPixel f.Out + 7).tdiv 8))
              = src.Dims.Width * ((bitsPerPixel f.Out + 7).tdiv 8) * src.Dims.Height := by
                ring
            _ ≤ (d0buf.length : Int) := hlen
        · have h := hroiF r rfl
          rw [show r.MaxY - r.MinY = r.Dy from rfl,
            Int.toNat_of_nonneg (by unfold Rect.Dy; omega : (0:Int) ≤ r.Dy)]
          calc r.Dy * (r.Dx * ((bitsPerPixel f.Out + 7).tdiv 8))
              = r.Dx * ((bitsPerPixel f.Out + 7).tdiv 8) * r.Dy := by ring
            _ ≤ (d0buf.length : Int) := hlen
      ·
        simp only [List.length_replicate]

/-- C6 counterexample: the claim includes the 12-bit RGB444BE and 15-bit
RGB555 shapes, but for a 3x1 RGB444BE image (and an 8x1 RGB555 image) with
valid Dims and full backing, the engine computes the X-range sub-slice end
`endX * ceil(bits/8)` beyond the row buffer and panics: `Process` returns
the panic outcome `none`, neither a Dims nor an error. -/
theorem claim_C6_counterexample :
    img444.Dims.Validate = none ∧
      f444.Process (some (List.replicate 6 0)) img444 none = none ∧
      img555.Dims.Validate = none ∧
      f555.Process (some (List.replicate 16 0)) img555 none = none :=
  ⟨rfl, rfl, rfl, rfl⟩

/-- C6 witness: the amended theorem applied to a concrete RGB888 image. -/
theorem claim_C6_witness :
    (fId888.Process (some (List.replicate 12 0)) wImg none).isSome :=
  claim_C6_amended fId888 wImg (some (List.replicate 12 0)) none
    (fun fn hfn => by cases hfn; intro d s; rfl)
    (by decide)
    (fun b hb => by cases hb; decide)

/-- C7 witness: the theorem applied to a concrete always-failing reader on
a streamed sub-byte (Grayscale2bit) image, whose first row read fails. -/
theorem claim_C7_witness :
    ∃ e mem,
      (sImg2.ReadAt sImg2.Dims.SizeRow.toNat
          ((loopStartY none + ((0 : Nat) : Int)) * sImg2.Dims.Stride)).2 = some e ∧
        fId2bit.Process (some (List.replicate 3 0)) sImg2 none = some (.error e, mem) :=
  claim_C7 fId2bit (fun d _ => d) sImg2 (List.replicate 3 0) none 0 rfl
    (fun _ _ => rfl) rfl (Or.inl rfl) (fun h => absurd h (by omega))
    (fun _ _ h => Option.noConfusion h)
    (by decide) (by decide)
    (fun i hi => absurd hi (Nat.not_lt_zero i))
    (Or.inr (by decide))

lemma pointMapN_length (g : List Byte → List Byte) (inB outB : Nat)
    (hg : ∀ p, (g p).length = outB) :
    ∀ (n : Nat) (s : List Byte), (pointMapN g inB n s).length = n * outB := by
  intro n
  induction n with
  | zero => intro s; simp [pointMapN]
  | succ n ih =>
    intro s
    simp only [pointMapN, List.length_append, hg, ih]
    ring

lemma pointMapN_add (g : List Byte → List Byte) (inB : Nat) :
    ∀ (a b : Nat) (s : List Byte),
      pointMapN g inB (a + b) s
        = pointMapN g inB a s ++ pointMapN g inB b (s.drop (a * inB)) := by
  intro a
  induction a with
  | zero =>
    intro b s
    simp [pointMapN]
  | succ a ih =>
    intro b s
    rw [show a + 1 + b = (a + b) + 1 from by omega]
    simp only [pointMapN, ih, List.append_assoc, List.drop_drop]
    rw [show inB + a * inB = (a + 1) * inB from by ring]

lemma pointMapN_take (g : List Byte → List Byte) (inB : Nat) :
    ∀ (n : Nat) (s : List Byte),
      pointMapN g inB n (s.take (n * inB)) = pointMapN g inB n s := by
  intro n
  induction n with
  | zero => intro s; rfl
  | succ n ih =>
    intro s
    simp only [pointMapN]
    congr 1
    · have h1 : inB ≤ (n + 1) * inB := by nlinarith
      rw [List.take_take, min_eq_left h1]
    · rw [List.drop_take]
      rw [show (n + 1) * inB - inB = n * inB from by rw [Nat.succ_mul]; omega]
      exact ih (s.drop inB)

lemma pointMapN_slice (g : List Byte → List Byte) (inB outB : Nat)
    (hg : ∀ p, (g p).length = outB) (a c e : Nat) (s : List Byte) :
    ((pointMapN g inB (a + c + e) s).drop (a * outB)).take (c * outB)
      = pointMapN g inB c ((s.drop (a * inB)).take (c * inB)) := by
  rw [show a + c + e = a + (c + e) from by ring]
  rw [pointMapN_add g inB a (c + e) s]
  rw [show a * outB = (pointMapN g inB a s).length from
    (pointMapN_length g inB outB hg a s).symm]
  rw [List.drop_left]
  rw [pointMapN_add g inB c e]
  rw [show c * outB = (pointMapN g inB c (s.drop (a * inB))).length from
    (pointMapN_length g inB outB hg c _).symm]
  rw [List.take_left]
  exact (pointMapN_take g inB c (s.drop (a * inB))).symm

lemma flatten_row_extract (L : Nat) :
    ∀ (j : Nat) (rows : Nat → List Byte), (∀ i, (rows i).length = L) →
      ∀ (n : Nat), j < n →
      ((((List.range n).map rows).flatten.drop (j * L)).take L) = rows j := by
  intro j
  induction j with
  | zero =>
    intro rows hlen n hn
    rcases n with _ | m
    · omega
    rw [List.range_succ_eq_map, List.map_cons, List.flatten_cons]
    simp only [Nat.zero_mul, List.drop_zero]
    rw [show L = (rows 0).length from (hlen 0).symm, List.take_left]
  | succ j ih =>
    intro rows hlen n hn
    rcases n with _ | m
    · omega
    rw [List.range_succ_eq_map, List.map_cons, List.flatten_cons]
    rw [show (j + 1) * L = (rows 0).length + j * L from by rw [hlen 0]; ring]
    rw [List.drop_append, List.map_map]
    exact ih (fun i => rows (i + 1)) (fun i => hlen (i + 1)) m (by omega)

/-- Sufficient conditions for `ValidateProcessArgs` to succeed with a
supplied destination buffer. -/
lemma vpa_ok_of_supplied (dst0 : List Byte) (dstShape : Dims) (src : Image)
    (roi : Option Rect)
    (hval : src.Dims.Validate = none)
    (hroiOK : ROIOk src.Dims roi)
    (hlen : requiredMinDstSize dstShape roi ≤ (dst0.length : Int)) :
    ValidateProcessArgs (some dst0) dstShape src roi = ⟨some dst0, src.Dims, none⟩ := by
  rcases roi with _ | r <;>
    simp only [ValidateProcessArgs, hval, requiredMinDstSize] at hlen ⊢
  · rw [if_neg (by omega)]
  · have h := hroiOK r rfl
    rw [if_neg (by omega), if_neg (by omega),
      if_neg (by simp only [Rect.Empty, Bool.or_eq_true, decide_eq_true_eq]; omega),
      if_neg (by omega)]

/-- Sufficient conditions for `ValidateProcessArgs` to succeed in-place. -/
lemma vpa_ok_of_inplace (dstShape : Dims) (src : Image) (b : List Byte)
    (hval : src.Dims.Validate = none)
    (hshape : dstShape.Shape = src.Dims.Shape)
    (hbft : src.buffered = true)
    (hB : src.Buffer = some b)
    (hsz : src.Dims.Size ≤ (b.length : Int))
    (hlen : dstShape.Stride * dstShape.Height ≤ (b.length : Int)) :
    ValidateProcessArgs none dstShape src none = ⟨some b, src.Dims, none⟩ := by
  simp only [ValidateProcessArgs, hval, hB, Option.isSome_none, Bool.false_eq_true,
    if_false, hbft]
  rw [if_neg (by simp [hshape]), if_neg (by simp), if_neg (by omega)]
  dsimp only
  rw [if_neg (by omega)]

lemma finish_ok_of (dd : Dims) (x : Option (Option Err × List Byte)) (target : List Byte)
    (hx : x = some (none, target)) : finishRows dd x = some (.ok dd, target) := by
  rw [hx]
  rfl

lemma processRows_stream_eq
    (fn : List Byte → List Byte → List Byte)
    (ra : Nat → Int → List Byte × Option Err)
    (ss rb sa se OS sy : Nat)
    (hxe : sa ≤ se) (hse : se ≤ rb)
    (O : Nat → List Byte)
    (hO : ∀ y, (O y).length = OS)
    (hcontract : ∀ y, (ra rb ((y * ss : Nat) : Int)).2 = none →
      (ra rb ((y * ss : Nat) : Int)).1.length = rb)
    (hfn : ∀ y dOld, (ra rb ((y * ss : Nat) : Int)).2 = none → dOld.length = OS →
      fn dOld ((((ra rb ((y * ss : Nat) : Int)).1.take rb).drop sa).take (se - sa)) = O y) :
    ∀ (n d0 : Nat) (mem rowBuf : List Byte),
      rowBuf.length = rb →
      (d0 + n) * OS ≤ mem.length →
      (∀ i, i < n → (ra rb (((sy + d0 + i) * ss : Nat) : Int)).2 = none) →
      processRows fn (.stream ra) (ss : Int) (rb : Int) (sa : Int) (se : Int)
          (OS : Int) (sy : Int) n ((sy : Int) + (d0 : Int)) mem rowBuf
        = some (none, mem.take (d0 * OS)
            ++ ((List.range n).map (fun i => O (sy + d0 + i))).flatten
            ++ mem.drop ((d0 + n) * OS)) := by
  intro n
  induction n with
  | zero =>
    intro d0 mem rowBuf hrowBufLen hmem hreads
    simp only [processRows, List.range_zero, List.map_nil, List.flatten_nil, List.nil_append,
      List.append_nil, Nat.add_zero]
    rw [List.take_append_drop]
  | succ n ih =>
    intro d0 mem rowBuf hrowBufLen hmem hreads
    have hrd0 := hreads 0 (Nat.succ_pos n)
    simp only [Nat.add_zero] at hrd0
    have hOSle : d0 * OS + OS ≤ mem.length := by
      calc d0 * OS + OS = (d0 + 1) * OS := by ring
        _ ≤ (d0 + (n + 1)) * OS := Nat.mul_le_mul_right OS (by omega)
        _ ≤ mem.length := hmem
    have htakeA : (mem.take (d0 * OS)).length = d0 * OS := by
      rw [List.length_take]
      omega
    have hcast1 : ((sy : Int) + (d0 : Int)) * (ss : Int) = (((sy + d0) * ss : Nat) : Int) := by
      push_cast
      ring
    have hdatlen : ((ra rb (((sy + d0) * ss : Nat) : Int)).1.take rb).length = rb := by
      rw [List.length_take, hcontract _ hrd0, Nat.min_self]
    have hrowBuf2 : (ra rb (((sy + d0) * ss : Nat) : Int)).1.take rb
          ++ rowBuf.drop ((ra rb (((sy + d0) * ss : Nat) : Int)).1.take rb).length
        = (ra rb (((sy + d0) * ss : Nat) : Int)).1.take rb := by
      rw [hdatlen, List.drop_eq_nil_of_le (le_of_eq hrowBufLen), List.append_nil]
    have hsub : goSlice ((ra rb (((sy + d0) * ss : Nat) : Int)).1.take rb) (sa : Int) (se : Int)
        = some ((((ra rb (((sy + d0) * ss : Nat) : Int)).1.take rb).drop sa).take (se - sa)) :=
      goSlice_nat _ sa se hxe (by rw [hdatlen]; omega)
    have hcast3 : ((sy : Int) + (d0 : Int) - (sy : Int)) * (OS : Int)
        = ((d0 * OS : Nat) : Int) := by
      push_cast
      ring
    have hcast4 : ((sy : Int) + (d0 : Int) - (sy : Int)) * (OS : Int) + (OS : Int)
        = ((d0 * OS + OS : Nat) : Int) := by
      push_cast
      ring
    have hdst : goSlice mem (((sy : Int) + (d0 : Int) - (sy : Int)) * (OS : Int))
        (((sy : Int) + (d0 : Int) - (sy : Int)) * (OS : Int) + (OS : Int))
        = some ((mem.drop (d0 * OS)).take (d0 * OS + OS - d0 * OS)) := by
      rw [hcast4, hcast3]
      exact goSlice_nat mem (d0 * OS) (d0 * OS + OS) (by omega) hOSle
    have hidx2 : d0 * OS + OS - d0 * OS = OS := by omega
    rw [hidx2] at hdst
    have hdOldLen : ((mem.drop (d0 * OS)).take OS).length = OS :=
      length_drop_take mem (d0 * OS) OS hOSle
    have happly := hfn (sy + d0) _ hrd0 hdOldLen
    rw [show ((sy : Int) + (d0 : Int) - (sy : Int)) * (OS : Int) = ((d0 * OS : Nat) : Int)
      from hcast3] at hdst
    simp only [processRows, hcast1, Int.toNat_natCast, hrowBuf2, hrd0, hsub, hdst, happly,
      hcast3]
    have hmem2 : (setRegion mem (d0 * OS) (O (sy + d0))).length = mem.length :=
      setRegion_length mem (O (sy + d0)) (d0 * OS) (by rw [hO]; omega)
    have hcast5 : (sy : Int) + (d0 : Int) + 1 = (sy : Int) + ((d0 + 1 : Nat) : Int) := by
      push_cast
      ring
    have hIH := ih (d0 + 1) (setRegion mem (d0 * OS) (O (sy + d0)))
      ((ra rb (((sy + d0) * ss : Nat) : Int)).1.take rb) hdatlen
      (by rw [hmem2, show d0 + 1 + n = d0 + (n + 1) from by omega]; exact hmem)
      (fun i hi => by
        rw [show sy + (d0 + 1) + i = sy + d0 + (i + 1) from by omega]
        exact hreads (i + 1) (by omega))
    rw [hcast5, hIH]
    have hO0 := hO (sy + d0)
    have E1 : (setRegion mem (d0 * OS) (O (sy + d0))).take ((d0 + 1) * OS)
        = mem.take (d0 * OS) ++ O (sy + d0) := by
      unfold setRegion
      rw [hO0, show (d0 + 1) * OS = d0 * OS + OS from by ring]
      set A := mem.take (d0 * OS) with hA
      rw [List.append_assoc, ← htakeA, List.take_append, ← hO0, List.take_left]
    have E3 : (setRegion mem (d0 * OS) (O (sy + d0))).drop ((d0 + 1 + n) * OS)
        = mem.drop ((d0 + (n + 1)) * OS) := by
      unfold setRegion
      rw [hO0]
      set A := mem.take (d0 * OS) with hA
      rw [List.append_assoc]
      rw [show (d0 + 1 + n) * OS = A.length + (OS + n * OS) from by rw [htakeA]; ring]
      rw [List.drop_append]
      rw [show OS + n * OS = (O (sy + d0)).length + n * OS from by rw [hO0]]
      rw [List.drop_append, List.drop_drop]
      congr 1
      ring
    have hmapEq : List.map (fun i => O (sy + (d0 + 1) + i)) (List.range n)
        = List.map ((fun i => O (sy + d0 + i)) ∘ Nat.succ) (List.range n) := by
      apply List.map_congr_left
      intro a _
      show O (sy + (d0 + 1) + a) = O (sy + d0 + Nat.succ a)
      exact congrArg O (by omega)
    simp only [Option.some.injEq, Prod.mk.injEq, true_and]
    rw [E1, E3, hmapEq, List.range_succ_eq_map, List.map_cons, List.flatten_cons,
      ← List.map_map]
    simp only [Nat.add_zero, List.append_assoc]

lemma processRows_stream_ok_facts (fn : List Byte → List Byte → List Byte)
    (ra : Nat → Int → List Byte × Option Err)
    (hcontract : ∀ len off, (ra len off).2 = none → (ra len off).1.length = len)
    (ss rb sa se OS sy : Int) :
    ∀ (n : Nat) (y : Int) (mem rowBuf out : List Byte),
      rowBuf.length = rb.toNat →
      processRows fn (.stream ra) ss rb sa se OS sy n y mem rowBuf = some (none, out) →
      (∀ i : Nat, i < n → (ra rb.toNat ((y + (i : Int)) * ss)).2 = none)
        ∧ (0 < n → 0 ≤ sa ∧ sa ≤ se ∧ se ≤ ((rb.toNat : Nat) : Int)) := by
  intro n
  induction n with
  | zero =>
    intro y mem rowBuf out hrowBufLen h
    exact ⟨fun i hi => absurd hi (Nat.not_lt_zero i), fun h0 => absurd h0 (by omega)⟩
  | succ m ih =>
    intro y mem rowBuf out hrowBufLen h
    rcases hr : (ra rb.toNat (y * ss)).2 with _ | e
    · have hdat : ((ra rb.toNat (y * ss)).1.take rb.toNat).length = rb.toNat := by
        rw [List.length_take, hcontract _ _ hr, Nat.min_self]
      have hrowBuf2 : (ra rb.toNat (y * ss)).1.take rb.toNat
            ++ rowBuf.drop ((ra rb.toNat (y * ss)).1.take rb.toNat).length
          = (ra rb.toNat (y * ss)).1.take rb.toNat := by
        rw [hdat, List.drop_eq_nil_of_le (le_of_eq hrowBufLen), List.append_nil]
      simp only [processRows, hr, hrowBuf2] at h
      rcases hg2 : goSlice ((ra rb.toNat (y * ss)).1.take rb.toNat) sa se with _ | srcSub
      · simp only [hg2, reduceCtorEq] at h
      rcases hg3 : goSlice mem ((y - sy) * OS) ((y - sy) * OS + OS) with _ | dstOld
      · simp only [hg2, hg3, reduceCtorEq] at h
      simp only [hg2, hg3] at h
      have hrec := ih (y + 1) _ _ _ hdat h
      have hb2 : 0 ≤ sa ∧ sa ≤ se
          ∧ se ≤ (((ra rb.toNat (y * ss)).1.take rb.toNat).length : Int) := by
        by_contra hcon
        rw [goSlice, if_neg (by tauto)] at hg2
        exact Option.noConfusion hg2
      refine ⟨?_, fun h0 => ⟨hb2.1, hb2.2.1, by
        have := hb2.2.2
        rw [hdat] at this
        exact this⟩⟩
      intro i hi
      rcases Nat.eq_zero_or_pos i with hi0 | hipos
      · subst hi0
        simpa using hr
      · obtain ⟨j, rfl⟩ : ∃ j, i = j + 1 := ⟨i - 1, by omega⟩
        have := hrec.1 j (by omega)
        rw [show y + ((j + 1 : Nat) : Int) = y + 1 + (j : Int) from by push_cast; ring]
        exact this
    · simp only [processRows, hr, Option.some.injEq, Prod.mk.injEq, reduceCtorEq,
        false_and] at h

lemma processRows_stream_run_int
    (fn : List Byte → List Byte → List Byte)
    (ra : Nat → Int → List Byte × Option Err)
    (ss rb sa se OS sy : Int) (n : Nat)
    (hss : 0 ≤ ss) (hsa : 0 ≤ sa) (hxe : sa ≤ se) (hse : se ≤ rb)
    (hOS : 0 ≤ OS) (hsy : 0 ≤ sy)
    (O : Nat → List Byte)
    (hO : ∀ y, (O y).length = OS.toNat)
    (hcontract : ∀ y : Nat, (ra rb.toNat ((y * ss.toNat : Nat) : Int)).2 = none →
      (ra rb.toNat ((y * ss.toNat : Nat) : Int)).1.length = rb.toNat)
    (hfn : ∀ y dOld, (ra rb.toNat ((y * ss.toNat : Nat) : Int)).2 = none →
      dOld.length = OS.toNat →
      fn dOld ((((ra rb.toNat ((y * ss.toNat : Nat) : Int)).1.take rb.toNat).drop
        sa.toNat).take (se.toNat - sa.toNat)) = O y)
    (mem rowBuf : List Byte)
    (hrowBuf : rowBuf.length = rb.toNat)
    (hmem : mem.length = n * OS.toNat)
    (hreads : ∀ i : Nat, i < n →
      (ra rb.toNat (((sy.toNat + i) * ss.toNat : Nat) : Int)).2 = none) :
    processRows fn (.stream ra) ss rb sa se OS sy n sy mem rowBuf
      = some (none, ((List.range n).map (fun i => O (sy.toNat + i))).flatten) := by
  have hrb : 0 ≤ rb := le_trans (le_trans hsa hxe) hse
  obtain ⟨ssN, rfl⟩ : ∃ k : Nat, ss = (k : Int) := ⟨ss.toNat, (Int.toNat_of_nonneg hss).symm⟩
  obtain ⟨rbN, rfl⟩ : ∃ k : Nat, rb = (k : Int) := ⟨rb.toNat, (Int.toNat_of_nonneg hrb).symm⟩
  obtain ⟨saN, rfl⟩ : ∃ k : Nat, sa = (k : Int) := ⟨sa.toNat, (Int.toNat_of_nonneg hsa).symm⟩
  obtain ⟨seN, rfl⟩ : ∃ k : Nat, se = (k : Int) :=
    ⟨se.toNat, (Int.toNat_of_nonneg (le_trans hsa hxe)).symm⟩
  obtain ⟨OSN, rfl⟩ : ∃ k : Nat, OS = (k : Int) := ⟨OS.toNat, (Int.toNat_of_nonneg hOS).symm⟩
  obtain ⟨syN, rfl⟩ : ∃ k : Nat, sy = (k : Int) := ⟨sy.toNat, (Int.toNat_of_nonneg hsy).symm⟩
  simp only [Int.toNat_natCast] at hcontract hfn hO hmem hrowBuf hreads ⊢
  have hreadsN : ∀ i : Nat, i < n → (ra rbN (((syN + 0 + i) * ssN : Nat) : Int)).2 = none := by
    intro i hi
    rw [show syN + 0 + i = syN + i from by omega]
    exact hreads i hi
  nth_rewrite 2 [show ((syN : Nat) : Int) = ((syN : Nat) : Int) + ((0 : Nat) : Int) from by
    simp]
  rw [processRows_stream_eq fn ra ssN rbN saN seN OSN syN (by exact_mod_cast hxe)
    (by exact_mod_cast hse) O hO hcontract hfn
    n 0 mem rowBuf hrowBuf (by rw [Nat.zero_add]; omega) hreadsN]
  simp only [Nat.zero_mul, List.take_zero, List.nil_append, Nat.zero_add, Nat.add_zero]
  rw [show n * OSN = mem.length from hmem.symm, List.drop_length, List.append_nil]

lemma slice_of_take (l : List Byte) (M a c : Nat) (h : a + c ≤ M) :
    ((l.take M).drop a).take c = (l.drop a).take c := by
  rw [List.drop_take]
  rw [List.take_take, Nat.min_eq_left (by omega)]

lemma extract_pointMap_rows (g : List Byte → List Byte) (inB outB : Nat)
    (hg : ∀ p, (g p).length = outB)
    (rowSrc : Nat → List Byte) (WN aX bX aY bY HN : Nat)
    (haX : aX ≤ bX) (hbX : bX ≤ WN) (hbY : bY ≤ HN) (haY : aY ≤ bY) :
    ((List.range (bY - aY)).map (fun i =>
        pointMapN g inB (bX - aX)
          (((rowSrc (aY + i)).drop (aX * inB)).take ((bX - aX) * inB)))).flatten
      = extractRegion (((List.range HN).map (fun j =>
          pointMapN g inB WN ((rowSrc j).take (WN * inB)))).flatten)
        (WN * outB) (aX * outB) (bX * outB) aY (bY - aY) := by
  simp only [extractRegion]
  congr 1
  apply List.map_congr_left
  intro i hi
  rw [List.mem_range] at hi
  rw [flatten_row_extract (WN * outB) (aY + i)
    (fun j => pointMapN g inB WN ((rowSrc j).take (WN * inB)))
    (fun j => pointMapN_length g inB outB hg _ _) HN (by omega)]
  rw [← Nat.sub_mul]
  set sRow := (rowSrc (aY + i)).take (WN * inB) with hsRow
  rw [show WN = aX + (bX - aX) + (WN - bX) from by omega]
  rw [pointMapN_slice g inB outB hg]
  rw [hsRow, slice_of_take _ _ _ _ (by
    rw [← Nat.add_mul]
    exact Nat.mul_le_mul_right inB (by omega))]

lemma finish_ok_inv (dd : Dims) (x : Option (Option Err × List Byte)) (d2 : Dims)
    (out : List Byte) (h : finishRows dd x = some (.ok d2, out)) :
    x = some (none, out) := by
  rcases x with _ | ⟨e?, m⟩
  · simp [finishRows] at h
  · rcases e? with _ | e
    · simp only [finishRows, Option.some.injEq, Prod.mk.injEq] at h
      rw [h.2]
    · simp [finishRows] at h

lemma processRows_direct_ok_bounds (fn : List Byte → List Byte → List Byte)
    (sbuf : List Byte) (ss rb sa se OS sy : Int) :
    ∀ (n : Nat) (y : Int) (mem rowBuf out : List Byte),
      processRows fn (.direct sbuf) ss rb sa se OS sy n y mem rowBuf = some (none, out) →
      (∀ i : Nat, i < n → 0 ≤ (y + (i : Int)) * ss
          ∧ (y + (i : Int)) * ss + rb ≤ (sbuf.length : Int))
        ∧ (0 < n → 0 ≤ sa ∧ sa ≤ se ∧ se ≤ rb) := by
  intro n
  induction n with
  | zero =>
    intro y mem rowBuf out h
    exact ⟨fun i hi => absurd hi (Nat.not_lt_zero i), fun h0 => absurd h0 (by omega)⟩
  | succ m ih =>
    intro y mem rowBuf out h
    rcases hg1 : goSlice sbuf (y * ss) (y * ss + rb) with _ | srcRow
    · simp only [processRows, hg1, Option.map_none', reduceCtorEq] at h
    · simp only [processRows, hg1, Option.map_some'] at h
      rcases hg2 : goSlice srcRow sa se with _ | srcSub
      · simp only [hg2, reduceCtorEq] at h
      rcases hg3 : goSlice mem ((y - sy) * OS) ((y - sy) * OS + OS) with _ | dstOld
      · simp only [hg2, hg3, reduceCtorEq] at h
      simp only [hg2, hg3] at h
      have hrec := ih (y + 1) _ _ _ h
      have hb1 : 0 ≤ y * ss ∧ y * ss ≤ y * ss + rb ∧ y * ss + rb ≤ (sbuf.length : Int) := by
        by_contra hcon
        rw [goSlice, if_neg (by tauto)] at hg1
        exact Option.noConfusion hg1
      have hb2 : 0 ≤ sa ∧ sa ≤ se ∧ se ≤ (srcRow.length : Int) := by
        by_contra hcon
        rw [goSlice, if_neg (by tauto)] at hg2
        exact Option.noConfusion hg2
      have hsrl : (srcRow.length : Int) ≤ rb := by
        have : srcRow = (sbuf.drop (y * ss).toNat).take ((y * ss + rb) - y * ss).toNat := by
          rw [goSlice, if_pos (by tauto)] at hg1
          exact (Option.some.inj hg1).symm
        have h2 : (y * ss + rb) - y * ss = rb := by omega
        rw [this, h2]
        have h1 : ((sbuf.drop (y * ss).toNat).take rb.toNat).length ≤ rb.toNat := by
          simp only [List.length_take, List.length_drop]
          omega
        omega
      refine ⟨?_, fun h0 => ⟨hb2.1, hb2.2.1, le_trans hb2.2.2 hsrl⟩⟩
      intro i hi
      rcases Nat.eq_zero_or_pos i with hi0 | hipos
      · subst hi0
        constructor
        · simpa using hb1.1
        · simpa using hb1.2.2
      · obtain ⟨j, rfl⟩ : ∃ j, i = j + 1 := ⟨i - 1, by omega⟩
        have := (hrec.1) j (by omega)
        constructor
        · rw [show y + ((j + 1 : Nat) : Int) = y + 1 + (j : Int) from by push_cast; ring]
          exact this.1
        · rw [show y + ((j + 1 : Nat) : Int) = y + 1 + (j : Int) from by push_cast; ring]
          exact this.2

lemma processRows_direct_run_int
    (fn : List Byte → List Byte → List Byte) (sbuf : List Byte)
    (ss rb sa se OS sy : Int) (n : Nat)
    (hss : 0 ≤ ss) (hsa : 0 ≤ sa) (hxe : sa ≤ se) (hse : se ≤ rb)
    (hOS : 0 ≤ OS) (hsy : 0 ≤ sy)
    {O : Nat → List Byte}
    (hO : ∀ y, (O y).length = OS.toNat)
    (hfn : ∀ y dOld, (y * ss.toNat + rb.toNat ≤ sbuf.length) → dOld.length = OS.toNat →
      fn dOld ((((sbuf.drop (y * ss.toNat)).take rb.toNat).drop sa.toNat).take
        (se.toNat - sa.toNat)) = O y)
    (mem rowBuf : List Byte)
    (hmem : mem.length = n * OS.toNat)
    (hsrc : ∀ i : Nat, i < n → (sy + (i : Int)) * ss + rb ≤ (sbuf.length : Int)) :
    processRows fn (.direct sbuf) ss rb sa se OS sy n sy mem rowBuf
      = some (none, ((List.range n).map (fun i => O (sy.toNat + i))).flatten) := by
  have hrb : 0 ≤ rb := le_trans (le_trans hsa hxe) hse
  obtain ⟨ssN, rfl⟩ : ∃ k : Nat, ss = (k : Int) := ⟨ss.toNat, (Int.toNat_of_nonneg hss).symm⟩
  obtain ⟨rbN, rfl⟩ : ∃ k : Nat, rb = (k : Int) := ⟨rb.toNat, (Int.toNat_of_nonneg hrb).symm⟩
  obtain ⟨saN, rfl⟩ : ∃ k : Nat, sa = (k : Int) := ⟨sa.toNat, (Int.toNat_of_nonneg hsa).symm⟩
  obtain ⟨seN, rfl⟩ : ∃ k : Nat, se = (k : Int) :=
    ⟨se.toNat, (Int.toNat_of_nonneg (le_trans hsa hxe)).symm⟩
  obtain ⟨OSN, rfl⟩ : ∃ k : Nat, OS = (k : Int) := ⟨OS.toNat, (Int.toNat_of_nonneg hOS).symm⟩
  obtain ⟨syN, rfl⟩ : ∃ k : Nat, sy = (k : Int) := ⟨sy.toNat, (Int.toNat_of_nonneg hsy).symm⟩
  simp only [Int.toNat_natCast] at hfn hO hmem ⊢
  have hsrcN : ∀ i : Nat, i < n → (syN + 0 + i) * ssN + rbN ≤ sbuf.length := by
    intro i hi
    have hI := hsrc i hi
    have hcastL : (((syN + 0 + i) * ssN + rbN : Nat) : Int)
        = (((syN : Nat) : Int) + (i : Int)) * ((ssN : Nat) : Int) + ((rbN : Nat) : Int) := by
      push_cast
      ring
    omega
  nth_rewrite 2 [show ((syN : Nat) : Int) = ((syN : Nat) : Int) + ((0 : Nat) : Int) from by
    simp]
  rw [processRows_direct_eq fn sbuf ssN rbN saN seN OSN syN (by exact_mod_cast hxe)
    (by exact_mod_cast hse) O (fun y _ => hO y)
    (fun y dOld hb hd => hfn y dOld hb hd)
    n 0 mem rowBuf (by rw [Nat.zero_add]; omega) hsrcN]
  simp only [Nat.zero_mul, List.take_zero, List.nil_append, Nat.zero_add, Nat.add_zero]
  rw [show n * OSN = mem.length from hmem.symm, List.drop_length, List.append_nil]

/-- C8: `Shape.BitsPerPixel` is a fixed total function returning exactly 24
for RGB888, 32 for RGBA8888, 16 for RGB565BE, 15 for RGB555, 12 for
RGB444BE, 2 for Grayscale2bit, 1 for Monochrome, and a negative value for
every other `Shape` value (including the undefined zero shape); being a
total function of the embedding it never panics. -/
theorem claim_C8 (sh : Shape) :
    (sh = ShapeRGB888 → bitsPerPixel sh = 24) ∧
    (sh = ShapeRGBA8888 → bitsPerPixel sh = 32) ∧
    (sh = ShapeRGB565BE → bitsPerPixel sh = 16) ∧
    (sh = ShapeRGB555 → bitsPerPixel sh = 15) ∧
    (sh = ShapeRGB444BE → bitsPerPixel sh = 12) ∧
    (sh = ShapeGrayscale2bit → bitsPerPixel sh = 2) ∧
    (sh = ShapeMonochrome → bitsPerPixel sh = 1) ∧
    (sh ≠ ShapeRGB888 ∧ sh ≠ ShapeRGBA8888 ∧ sh ≠ ShapeRGB565BE ∧ sh ≠ ShapeRGB555 ∧
      sh ≠ ShapeRGB444BE ∧ sh ≠ ShapeGrayscale2bit ∧ sh ≠ ShapeMonochrome →
      bitsPerPixel sh < 0) := by
  refine ⟨?_, ?_, ?_, ?_, ?_, ?_, ?_, ?_⟩ <;> intro h
  · subst h; decide
  · subst h; decide
  · subst h; decide
  · subst h; decide
  · subst h; decide
  · subst h; decide
  · subst h; decide
  · obtain ⟨h1, h2, h3, h4, h5, h6, h7⟩ := h
    unfold bitsPerPixel
    rw [if_neg h2, if_neg h1, if_neg h6, if_neg h7, if_neg h5, if_neg h4, if_neg h3]
    decide

/-- C8 witness: the theorem applied at the application-defined shape `-5`
(whose bit depth must be negative) and at `ShapeRGB888`. -/
theorem claim_C8_witness : bitsPerPixel (-5) < 0 ∧ bitsPerPixel ShapeRGB888 = 24 :=
  ⟨(claim_C8 (-5)).2.2.2.2.2.2.2 (by decide), (claim_C8 ShapeRGB888).1 rfl⟩

/-- C2: `Dims.Validate` succeeds iff width and height are positive, the
shape's bit depth is at least 1, and `stride*8 ≥ width*bits`; in
particular the code's ceiling test `ceil(width*bits/8) ≤ stride` is
equivalent over the integers to the spec's `stride*8 ≥ width*bits`. -/
theorem claim_C2 (d : Dims) :
    d.Validate = none ↔
      (0 < d.Width ∧ 0 < d.Height ∧ 1 ≤ bitsPerPixel d.Shape ∧
        d.Width * bitsPerPixel d.Shape ≤ d.Stride * 8) := by
  unfold Dims.Validate
  by_cases h1 : d.Height ≤ 0 ∨ d.Width ≤ 0
  · rw [if_pos h1]
    simp only [reduceCtorEq, false_iff]
    rintro ⟨c1, c2, -, -⟩
    omega
  · rw [if_neg h1]
    by_cases h2 : bitsPerPixel d.Shape < 1
    · rw [if_pos h2]
      simp only [reduceCtorEq, false_iff]
      rintro ⟨-, -, c3, -⟩
      omega
    · rw [if_neg h2]
      have hp : 0 < d.Width * bitsPerPixel d.Shape := mul_pos (by omega) (by omega)
      rw [show (d.Width * bitsPerPixel d.Shape + 7).tdiv 8 =
          (d.Width * bitsPerPixel d.Shape + 7) / 8 from Int.tdiv_eq_ediv (by omega) (by omega)]
      by_cases h3 : (d.Width * bitsPerPixel d.Shape + 7) / 8 > d.Stride
      · rw [if_pos h3]
        simp only [reduceCtorEq, false_iff]
        rintro ⟨-, -, -, c4⟩
        generalize hg : d.Width * bitsPerPixel d.Shape = p at hp h3 c4
        omega
      · rw [if_neg h3]
        simp only [true_iff]
        refine ⟨by omega, by omega, by omega, ?_⟩
        generalize hg : d.Width * bitsPerPixel d.Shape = p at hp h3
        omega

/-- C9: on every return path of `ValidateProcessArgs` - success and each
error return - the returned `srcDims` equals the value obtained from the
single `src.Dims()` call made at the start of the function. -/
theorem claim_C9 (dst : Option (List Byte)) (dstShape : Dims) (src : Image)
    (roi : Option Rect) :
    (ValidateProcessArgs dst dstShape src roi).srcDims = src.Dims := by
  rcases hval : src.Dims.Validate with _ | e <;>
    simp only [ValidateProcessArgs, hval]
  repeat' split
  all_goals rfl

lemma byte_inv_inv : ∀ v : Byte, (255 : Byte) - (255 - v) = v := by decide

lemma flatten_map_length (L : Nat) (rows : Nat → List Byte) :
    ∀ n : Nat, (∀ i, i < n → (rows i).length = L) →
      (((List.range n).map rows).flatten).length = n * L := by
  intro n
  induction n with
  | zero => intro h; simp
  | succ m ih =>
    intro hlen
    rw [List.range_succ, List.map_append, List.flatten_append, List.length_append,
      ih (fun i hi => hlen i (by omega))]
    simp only [List.map_cons, List.map_nil, List.flatten_cons, List.flatten_nil,
      List.append_nil]
    rw [hlen m (by omega)]
    ring

lemma flatten_row_extract_lt (L : Nat) :
    ∀ (j : Nat) (rows : Nat → List Byte) (n : Nat),
      (∀ i, i < n → (rows i).length = L) → j < n →
      ((((List.range n).map rows).flatten.drop (j * L)).take L) = rows j := by
  intro j
  induction j with
  | zero =>
    intro rows n hlen hn
    rcases n with _ | m
    · omega
    rw [List.range_succ_eq_map, List.map_cons, List.flatten_cons]
    simp only [Nat.zero_mul, List.drop_zero]
    rw [show L = (rows 0).length from (hlen 0 (by omega)).symm, List.take_left]
  | succ j ih =>
    intro rows n hlen hn
    rcases n with _ | m
    · omega
    rw [List.range_succ_eq_map, List.map_cons, List.flatten_cons]
    rw [show (j + 1) * L = (rows 0).length + j * L from by rw [hlen 0 (by omega)]; ring]
    rw [List.drop_append, List.map_map]
    exact ih (fun i => rows (i + 1)) m (fun i hi => hlen (i + 1) (by omega)) (by omega)

lemma flatten_rows_take (L : Nat) :
    ∀ (n : Nat) (l : List Byte), n * L ≤ l.length →
      ((List.range n).map (fun i => (l.drop (i * L)).take L)).flatten = l.take (n * L) := by
  intro n
  induction n with
  | zero => intro l h; simp
  | succ m ih =>
    intro l h
    rw [List.range_succ_eq_map, List.map_cons, List.flatten_cons, List.map_map]
    simp only [Nat.zero_mul, List.drop_zero]
    have hstep : ∀ a ∈ List.range m,
        ((fun i => (l.drop (i * L)).take L) ∘ Nat.succ) a
          = (fun i => (((l.drop L).drop (i * L)).take L)) a := by
      intro a _
      simp only [Function.comp_apply]
      rw [show Nat.succ a * L = L + a * L from by rw [Nat.succ_mul]; omega,
        ← List.drop_drop]
    rw [List.map_congr_left hstep]
    rw [Nat.succ_mul] at h
    rw [ih (l.drop L) (by simp only [List.length_drop]; omega)]
    rw [← List.take_add]
    rw [show L + m * L = Nat.succ m * L from by rw [Nat.succ_mul]; omega]

lemma processRows_inplace_run_int
    (fn : List Byte → List Byte → List Byte) (L : Nat)
    (F : List Byte → List Byte)
    (hF : ∀ dOld s, dOld.length = L → s.length = L → fn dOld s = F s)
    (hFlen : ∀ s, s.length = L → (F s).length = L)
    (ss rb sa se OS : Int) (n : Nat) (mem rowBuf : List Byte)
    (hss : ss = (L : Int)) (hrb : rb = (L : Int)) (hsa : sa = 0) (hse : se = (L : Int))
    (hOS : OS = (L : Int)) (hmem : n * L ≤ mem.length) :
    processRows fn .inplace ss rb sa se OS 0 n 0 mem rowBuf
      = some (none, ((List.range n).map (fun i => F ((mem.drop (i * L)).take L))).flatten
          ++ mem.drop (n * L)) := by
  subst hss hrb hsa hse hOS
  have h := processRows_inplace_eq fn L F hF hFlen n 0 mem rowBuf (by simpa using hmem)
  simpa using h

lemma processRows_direct_run_int_cond
    (fn : List Byte → List Byte → List Byte) (sbuf : List Byte)
    (ss rb sa se OS sy : Int) (n : Nat)
    (hss : 0 ≤ ss) (hsa : 0 ≤ sa) (hxe : sa ≤ se) (hse : se ≤ rb)
    (hOS : 0 ≤ OS) (hsy : 0 ≤ sy)
    (O : Nat → List Byte)
    (hO : ∀ y, (y * ss.toNat + rb.toNat ≤ sbuf.length) → (O y).length = OS.toNat)
    (hfn : ∀ y dOld, (y * ss.toNat + rb.toNat ≤ sbuf.length) → dOld.length = OS.toNat →
      fn dOld ((((sbuf.drop (y * ss.toNat)).take rb.toNat).drop sa.toNat).take
        (se.toNat - sa.toNat)) = O y)
    (mem rowBuf : List Byte)
    (hmem : mem.length = n * OS.toNat)
    (hsrc : ∀ i : Nat, i < n → (sy + (i : Int)) * ss + rb ≤ (sbuf.length : Int)) :
    processRows fn (.direct sbuf) ss rb sa se OS sy n sy mem rowBuf
      = some (none, ((List.range n).map (fun i => O (sy.toNat + i))).flatten) := by
  have hrb : 0 ≤ rb := le_trans (le_trans hsa hxe) hse
  obtain ⟨ssN, rfl⟩ : ∃ k : Nat, ss = (k : Int) := ⟨ss.toNat, (Int.toNat_of_nonneg hss).symm⟩
  obtain ⟨rbN, rfl⟩ : ∃ k : Nat, rb = (k : Int) := ⟨rb.toNat, (Int.toNat_of_nonneg hrb).symm⟩
  obtain ⟨saN, rfl⟩ : ∃ k : Nat, sa = (k : Int) := ⟨sa.toNat, (Int.toNat_of_nonneg hsa).symm⟩
  obtain ⟨seN, rfl⟩ : ∃ k : Nat, se = (k : Int) :=
    ⟨se.toNat, (Int.toNat_of_nonneg (le_trans hsa hxe)).symm⟩
  obtain ⟨OSN, rfl⟩ : ∃ k : Nat, OS = (k : Int) := ⟨OS.toNat, (Int.toNat_of_nonneg hOS).symm⟩
  obtain ⟨syN, rfl⟩ : ∃ k : Nat, sy = (k : Int) := ⟨sy.toNat, (Int.toNat_of_nonneg hsy).symm⟩
  simp only [Int.toNat_natCast] at hfn hO hmem ⊢
  have hsrcN : ∀ i : Nat, i < n → (syN + 0 + i) * ssN + rbN ≤ sbuf.length := by
    intro i hi
    have hI := hsrc i hi
    have hcastL : (((syN + 0 + i) * ssN + rbN : Nat) : Int)
        = (((syN : Nat) : Int) + (i : Int)) * ((ssN : Nat) : Int) + ((rbN : Nat) : Int) := by
      push_cast
      ring
    omega
  nth_rewrite 2 [show ((syN : Nat) : Int) = ((syN : Nat) : Int) + ((0 : Nat) : Int) from by
    simp]
  rw [processRows_direct_eq fn sbuf ssN rbN saN seN OSN syN (by exact_mod_cast hxe)
    (by exact_mod_cast hse) O (fun y hb => hO y hb)
    (fun y dOld hb hd => hfn y dOld hb hd)
    n 0 mem rowBuf (by rw [Nat.zero_add]; omega) hsrcN]
  simp only [Nat.zero_mul, List.take_zero, List.nil_append, Nat.zero_add, Nat.add_zero]
  rw [show n * OSN = mem.length from hmem.symm, List.drop_length, List.append_nil]

/-- Running the in-place invert filter on a packed (stride = 3*width)
RGB888 buffered image: the returned buffer is the row-wise byte inversion
of the readable region, with any bytes past it left untouched. -/
lemma inplace_invert_run (src : Image) (sb : List Byte)
    (hsh : src.Dims.Shape = ShapeRGB888)
    (hval : src.Dims.Validate = none)
    (hstr : src.Dims.Stride = 3 * src.Dims.Width)
    (hbft : src.buffered = true)
    (hB : src.Buffer = some sb)
    (hsz : src.Dims.Size ≤ (sb.length : Int)) :
    NewInvertedPerPixel.Process none src none
      = some (.ok (pfOutDims NewInvertedPerPixel src.Dims none),
          ((List.range src.Dims.Height.toNat).map (fun i =>
            ((sb.drop (i * (src.Dims.Width.toNat * 3))).take
              (src.Dims.Width.toNat * 3)).map (fun v => (255 : Byte) - v))).flatten
          ++ sb.drop (src.Dims.Height.toNat * (src.Dims.Width.toNat * 3))) := by
  obtain ⟨hW, hH, hbits, hstride⟩ := (validate_none_iff src.Dims).mp hval
  have hWc : src.Dims.Width = (src.Dims.Width.toNat : Int) :=
    (Int.toNat_of_nonneg (by omega)).symm
  have hHc : src.Dims.Height = (src.Dims.Height.toNat : Int) :=
    (Int.toNat_of_nonneg (by omega)).symm
  have hrow3 : src.Dims.SizeRow = 3 * src.Dims.Width := by
    unfold Dims.SizeRow
    rw [hsh, show bitsPerPixel ShapeRGB888 = 24 from rfl,
      Int.tdiv_eq_ediv (by omega) (by omega)]
    omega
  have hszN : src.Dims.Height.toNat * (src.Dims.Width.toNat * 3) ≤ sb.length := by
    have h2 := size_eq src.Dims hval
    rw [hstr, hrow3] at h2
    have hc : ((src.Dims.Height.toNat * (src.Dims.Width.toNat * 3) : Nat) : Int)
        = (src.Dims.Height - 1) * (3 * src.Dims.Width) + 3 * src.Dims.Width := by
      push_cast
      rw [← hWc, ← hHc]
      ring
    omega
  have hFn : NewInvertedPerPixel.Fn = some invertFn := rfl
  have hvi := vpa_ok_of_inplace (pfOutDims NewInvertedPerPixel src.Dims none) src sb hval
    (by simp [pfOutDims, NewInvertedPerPixel, hsh]) hbft hB hsz
    (by
      simp only [pfOutDims]
      rw [show (bitsPerPixel NewInvertedPerPixel.Out + 7).tdiv 8 = (3 : Int) from rfl]
      have hc : ((src.Dims.Height.toNat * (src.Dims.Width.toNat * 3) : Nat) : Int)
          = src.Dims.Width * 3 * src.Dims.Height := by
        push_cast
        rw [← hWc, ← hHc]
        ring
      have hc2 : ((sb.length : Nat) : Int) = (sb.length : Int) := rfl
      omega)
  simp only [PointFilter.Process, hFn]
  rw [if_neg (by rw [hsh]; decide)]
  simp only [hvi]
  simp only [Option.getD_some]
  rw [show ((src.Dims.Height : Int) - 0).toNat = src.Dims.Height.toNat from by omega]
  apply finish_ok_of
  apply processRows_inplace_run_int invertFn (src.Dims.Width.toNat * 3)
    (fun s => s.map (fun v => (255 : Byte) - v))
  · intro d s hd hs
    unfold invertFn
    rw [hs, ← hd, List.drop_length, List.append_nil]
  · intro s hs
    simp only [List.length_map]
    exact hs
  · rw [hstr, hWc]
    simp only [Int.toNat_natCast]
    push_cast
    ring
  · rw [hrow3, hWc]
    simp only [Int.toNat_natCast]
    push_cast
    ring
  · exact zero_mul _
  · rw [show (bitsPerPixel NewInvertedPerPixel.In + 7).tdiv 8 = (3 : Int) from rfl, hWc]
    simp only [Int.toNat_natCast]
    push_cast
    ring
  · simp only [pfOutDims]
    rw [show (bitsPerPixel NewInvertedPerPixel.Out + 7).tdiv 8 = (3 : Int) from rfl, hWc]
    simp only [Int.toNat_natCast]
    push_cast
    ring
  · exact hszN

/-- Running the invert filter with a supplied exact-size destination buffer
on a packed (stride = 3*width) RGB888 buffered image: the returned buffer
is the row-wise byte inversion of the readable region. -/
lemma supplied_invert_run (src : Image) (sb c : List Byte)
    (hsh : src.Dims.Shape = ShapeRGB888)
    (hval : src.Dims.Validate = none)
    (hstr : src.Dims.Stride = 3 * src.Dims.Width)
    (hbft : src.buffered = true)
    (hB : src.Buffer = some sb)
    (hsz : src.Dims.Size ≤ (sb.length : Int))
    (hc : (c.length : Int) = src.Dims.Height * (src.Dims.Width * 3)) :
    NewInvertedPerPixel.Process (some c) src none
      = some (.ok (pfOutDims NewInvertedPerPixel src.Dims none),
          ((List.range src.Dims.Height.toNat).map (fun i =>
            ((sb.drop (i * (src.Dims.Width.toNat * 3))).take
              (src.Dims.Width.toNat * 3)).map (fun v => (255 : Byte) - v))).flatten) := by
  obtain ⟨hW, hH, hbits, hstride⟩ := (validate_none_iff src.Dims).mp hval
  have hSpos : 0 < src.Dims.Stride := validate_stride_pos src.Dims hval
  have hWc : src.Dims.Width = (src.Dims.Width.toNat : Int) :=
    (Int.toNat_of_nonneg (by omega)).symm
  have hHc : src.Dims.Height = (src.Dims.Height.toNat : Int) :=
    (Int.toNat_of_nonneg (by omega)).symm
  have hrow3 : src.Dims.SizeRow = 3 * src.Dims.Width := by
    unfold Dims.SizeRow
    rw [hsh, show bitsPerPixel ShapeRGB888 = 24 from rfl,
      Int.tdiv_eq_ediv (by omega) (by omega)]
    omega
  have hstrN : src.Dims.Stride.toNat = src.Dims.Width.toNat * 3 := by omega
  have hrbN : src.Dims.SizeRow.toNat = src.Dims.Width.toNat * 3 := by omega
  have hOSW : (pfOutDims NewInvertedPerPixel src.Dims none).Stride.toNat
      = src.Dims.Width.toNat * 3 := by
    simp only [pfOutDims]
    rw [show (bitsPerPixel NewInvertedPerPixel.Out + 7).tdiv 8 = (3 : Int) from rfl]
    omega
  have hseN : (src.Dims.Width * ((bitsPerPixel NewInvertedPerPixel.In + 7).tdiv 8)).toNat
      = src.Dims.Width.toNat * 3 := by
    rw [show (bitsPerPixel NewInvertedPerPixel.In + 7).tdiv 8 = (3 : Int) from rfl]
    omega
  have hFn : NewInvertedPerPixel.Fn = some invertFn := rfl
  have hv1 : ValidateProcessArgs (some c) (pfOutDims NewInvertedPerPixel src.Dims none)
      src none = ⟨some c, src.Dims, none⟩ := by
    apply vpa_ok_of_supplied c _ src none hval
    · intro rr hrr
      cases hrr
    · simp only [requiredMinDstSize, pfOutDims]
      rw [show (bitsPerPixel NewInvertedPerPixel.Out + 7).tdiv 8 = (3 : Int) from rfl, hc]
      exact le_of_eq (by ring)
  set rowsF : Nat → List Byte := fun i =>
    ((sb.drop (i * (src.Dims.Width.toNat * 3))).take
      (src.Dims.Width.toNat * 3)).map (fun v => (255 : Byte) - v) with hrowsF
  simp only [PointFilter.Process, hFn]
  rw [if_neg (by rw [hsh]; decide)]
  simp only [hv1]
  rw [if_pos hbft]
  simp only [hB, Option.getD_some]
  rw [show ((src.Dims.Height : Int) - 0).toNat = src.Dims.Height.toNat from by omega]
  apply finish_ok_of
  rw [show ((List.range src.Dims.Height.toNat).map rowsF).flatten
      = ((List.range src.Dims.Height.toNat).map
          (fun i => rowsF ((0 : Int).toNat + i))).flatten from by simp]
  apply processRows_direct_run_int_cond invertFn sb
  · omega
  · rw [zero_mul]
  · rw [show (bitsPerPixel NewInvertedPerPixel.In + 7).tdiv 8 = (3 : Int) from rfl]
    omega
  · rw [show (bitsPerPixel NewInvertedPerPixel.In + 7).tdiv 8 = (3 : Int) from rfl, hrow3]
    omega
  · simp only [pfOutDims]
    rw [show (bitsPerPixel NewInvertedPerPixel.Out + 7).tdiv 8 = (3 : Int) from rfl]
    omega
  · exact le_rfl
  · intro y hb
    rw [hstrN, hrbN] at hb
    rw [hOSW, hrowsF]
    simp only [List.length_map]
    exact length_drop_take sb _ _ (by omega)
  · intro y dOld hb hd
    rw [hstrN, hrbN] at hb
    rw [show ((0 : Int) * ((bitsPerPixel NewInvertedPerPixel.In + 7).tdiv 8)).toNat = 0 from by
      rw [zero_mul]
      rfl]
    rw [hseN, hstrN, hrbN]
    simp only [List.drop_zero, Nat.sub_zero, List.take_take, Nat.min_self]
    unfold invertFn
    have hrl : ((sb.drop (y * (src.Dims.Width.toNat * 3))).take
        (src.Dims.Width.toNat * 3)).length = src.Dims.Width.toNat * 3 :=
      length_drop_take sb _ _ (by omega)
    rw [hrl, List.drop_eq_nil_of_le (show dOld.length ≤ src.Dims.Width.toNat * 3 from by
      rw [hd, hOSW]), List.append_nil, hrowsF]
  · (try simp only [Option.getD_some])
    rw [hOSW]
    have hcast : ((src.Dims.Height.toNat * (src.Dims.Width.toNat * 3) : Nat) : Int)
        = src.Dims.Height * (src.Dims.Width * 3) := by
      push_cast
      rw [← hWc, ← hHc]
    omega
  · intro i hi
    rw [hstr, hrow3]
    have h1 : (0 + (i : Int)) * (3 * src.Dims.Width)
        ≤ (src.Dims.Height - 1) * (3 * src.Dims.Width) :=
      mul_le_mul_of_nonneg_right (by omega) (by omega)
    have h2 := size_eq src.Dims hval
    rw [hstr, hrow3] at h2
    omega

/-- C4: for every pure per-pixel transform and every source image - buffered
or streamed, with a streamed reader obeying the positional-read contract -
and every region of interest: whenever the ROI call and the whole-image
call both succeed with exact-size destination buffers, the ROI output
equals the corresponding region extracted from the whole-image output. -/
theorem claim_C4 (g : List Byte → List Byte) (inB outB : Nat)
    (f : PointFilter) (fn : List Byte → List Byte → List Byte)
    (src : Image) (r : Rect) (c1 c2 out1 out2 : List Byte) (d1 d2 : Dims)
    (hFn : f.Fn = some fn)
    (hg : ∀ p, (g p).length = outB)
    (hfnPP : ∀ dOld s k, s.length = k * inB → fn dOld s = pointMapN g inB k s)
    (hinB : (bitsPerPixel f.In + 7).tdiv 8 = (inB : Int))
    (houtB : (bitsPerPixel f.Out + 7).tdiv 8 = (outB : Int))
    (hc1 : (c1.length : Int) = r.Dy * (r.Dx * (outB : Int)))
    (hc2 : (c2.length : Int) = src.Dims.Height * (src.Dims.Width * (outB : Int)))
    (hcontract : src.buffered = false ∨ src.Buffer = none →
      ∀ len off, (src.ReadAt len off).2 = none → (src.ReadAt len off).1.length = len)
    (h1 : f.Process (some c1) src (some r) = some (.ok d1, out1))
    (h2 : f.Process (some c2) src none = some (.ok d2, out2)) :
    out1 = extractRegion out2 (src.Dims.Width.toNat * outB) (r.MinX.toNat * outB)
      (r.MaxX.toNat * outB) r.MinY.toNat r.Dy.toNat := by
  simp only [PointFilter.Process, hFn] at h1 h2
  by_cases hshq : src.Dims.Shape ≠ f.In
  · rw [if_pos hshq] at h1
    simp at h1
  rw [if_neg hshq] at h1 h2
  rcases hv1e : (ValidateProcessArgs (some c1) (pfOutDims f src.Dims (some r)) src
      (some r)).err with _ | e1
  swap
  · rw [hv1e] at h1
    simp at h1
  rcases hv2e : (ValidateProcessArgs (some c2) (pfOutDims f src.Dims none) src
      none).err with _ | e2
  swap
  · rw [hv2e] at h2
    simp at h2
  rw [hv1e] at h1
  rw [hv2e] at h2
  have hdst1 := vpa_dst_eq (some c1) _ src (some r) hv1e
  have hdst2 := vpa_dst_eq (some c2) _ src none hv2e
  dsimp only at hdst1 hdst2 h1 h2
  rw [hdst1] at h1
  rw [hdst2] at h2
  simp only [Option.getD_some] at h1 h2
  obtain ⟨hval, hroi, -, -⟩ := vpa_ok_necessary _ _ _ _ hv1e
  have hr := hroi r rfl
  obtain ⟨hW, hH, hbits, hstride⟩ := (validate_none_iff src.Dims).mp hval
  have hSpos : 0 < src.Dims.Stride := validate_stride_pos src.Dims hval
  have hrb0 : 0 ≤ src.Dims.SizeRow := by
    unfold Dims.SizeRow
    have hnn : 0 ≤ src.Dims.Width * bitsPerPixel src.Dims.Shape :=
      mul_nonneg (by omega) (by omega)
    rw [Int.tdiv_eq_ediv (by omega) (by omega)]
    omega
  have hWc : src.Dims.Width = (src.Dims.Width.toNat : Int) :=
    (Int.toNat_of_nonneg (by omega)).symm
  have hHc : src.Dims.Height = (src.Dims.Height.toNat : Int) :=
    (Int.toNat_of_nonneg (by omega)).symm
  have hMinXc : r.MinX = (r.MinX.toNat : Int) := (Int.toNat_of_nonneg (by omega)).symm
  have hMinYc : r.MinY = (r.MinY.toNat : Int) := (Int.toNat_of_nonneg (by omega)).symm
  have hMaxXc : r.MaxX = (r.MaxX.toNat : Int) := (Int.toNat_of_nonneg (by omega)).symm
  have hMaxYc : r.MaxY = (r.MaxY.toNat : Int) := (Int.toNat_of_nonneg (by omega)).symm
  have hsaN1 : (r.MinX * ((bitsPerPixel f.In + 7).tdiv 8)).toNat = r.MinX.toNat * inB := by
    rw [hinB, hMinXc, ← Nat.cast_mul, Int.toNat_natCast, Int.toNat_natCast]
  have hseN1 : (r.MaxX * ((bitsPerPixel f.In + 7).tdiv 8)).toNat = r.MaxX.toNat * inB := by
    rw [hinB, hMaxXc, ← Nat.cast_mul, Int.toNat_natCast, Int.toNat_natCast]
  have hsaN2 : ((0 : Int) * ((bitsPerPixel f.In + 7).tdiv 8)).toNat = 0 := by
    rw [zero_mul]
    rfl
  have hseN2 : (src.Dims.Width * ((bitsPerPixel f.In + 7).tdiv 8)).toNat
      = src.Dims.Width.toNat * inB := by
    rw [hinB, hWc, ← Nat.cast_mul, Int.toNat_natCast, Int.toNat_natCast]
  have hOS1N : (pfOutDims f src.Dims (some r)).Stride.toNat
      = (r.MaxX.toNat - r.MinX.toNat) * outB := by
    simp only [pfOutDims]
    rw [houtB]
    unfold Rect.Dx
    rw [hMaxXc, hMinXc,
      show (r.MaxX.toNat : Int) - (r.MinX.toNat : Int)
        = ((r.MaxX.toNat - r.MinX.toNat : Nat) : Int) from by omega,
      ← Nat.cast_mul, Int.toNat_natCast]
    simp only [Int.toNat_natCast]
  have hOS2N : (pfOutDims f src.Dims none).Stride.toNat
      = src.Dims.Width.toNat * outB := by
    simp only [pfOutDims]
    rw [houtB, hWc, ← Nat.cast_mul, Int.toNat_natCast]
    simp only [Int.toNat_natCast]
  have hOS1nn : 0 ≤ (pfOutDims f src.Dims (some r)).Stride := by
    simp only [pfOutDims]
    rw [houtB]
    exact mul_nonneg (by unfold Rect.Dx; omega) (by positivity)
  have hOS2nn : 0 ≤ (pfOutDims f src.Dims none).Stride := by
    simp only [pfOutDims]
    rw [houtB]
    exact mul_nonneg (by omega) (by positivity)
  have hmem1 : c1.length = (r.MaxY - r.MinY).toNat
      * (pfOutDims f src.Dims (some r)).Stride.toNat := by
    rw [hOS1N]
    rw [show (r.MaxY - r.MinY).toNat = r.MaxY.toNat - r.MinY.toNat from by omega]
    have hcast : (c1.length : Int)
        = (((r.MaxY.toNat - r.MinY.toNat) * ((r.MaxX.toNat - r.MinX.toNat) * outB)
          : Nat) : Int) := by
      rw [hc1]
      unfold Rect.Dy Rect.Dx
      rw [hMaxYc, hMinYc, hMaxXc, hMinXc,
        show (r.MaxY.toNat : Int) - (r.MinY.toNat : Int)
          = ((r.MaxY.toNat - r.MinY.toNat : Nat) : Int) from by omega,
        show (r.MaxX.toNat : Int) - (r.MinX.toNat : Int)
          = ((r.MaxX.toNat - r.MinX.toNat : Nat) : Int) from by omega]
      simp only [Int.toNat_natCast]
      push_cast
      ring
    omega
  have hmem2 : c2.length = (src.Dims.Height - 0).toNat
      * (pfOutDims f src.Dims none).Stride.toNat := by
    rw [hOS2N]
    rw [show ((src.Dims.Height : Int) - 0).toNat = src.Dims.Height.toNat from by omega]
    have hcast : (c2.length : Int)
        = ((src.Dims.Height.toNat * (src.Dims.Width.toNat * outB) : Nat) : Int) := by
      rw [hc2, hHc, hWc]
      simp only [Int.toNat_natCast]
      push_cast
      ring
    omega
  have hn1pos : 0 < (r.MaxY - r.MinY).toNat := by omega
  have hn2pos : 0 < ((src.Dims.Height : Int) - 0).toNat := by omega
  have hsplitX : r.MinX.toNat * inB + (r.MaxX.toNat - r.MinX.toNat) * inB
      = r.MaxX.toNat * inB := by
    rw [← Nat.add_mul]
    congr 1
    omega
  -- resolve the source access mode
  rcases hbft : src.buffered with _ | _
  case _ =>
    -- streamed source (not buffered)
    rw [if_neg (by simp [hbft])] at h1 h2
    have hnb : src.buffered = false ∨ src.Buffer = none := Or.inl hbft
    have hctr := hcontract hnb
    have hssc : src.Dims.Stride = (src.Dims.Stride.toNat : Int) :=
      (Int.toNat_of_nonneg (by omega)).symm
    have hp1 := finish_ok_inv _ _ _ _ h1
    have hp2 := finish_ok_inv _ _ _ _ h2
    have hbd1 := processRows_stream_ok_facts fn src.ReadAt hctr _ _ _ _ _ _ _ _ _ _ _
      (by simp) hp1
    have hbd2 := processRows_stream_ok_facts fn src.ReadAt hctr _ _ _ _ _ _ _ _ _ _ _
      (by simp) hp2
    have hX1 := hbd1.2 hn1pos
    have hX2 := hbd2.2 hn2pos
    have hse1 : r.MaxX * ((bitsPerPixel f.In + 7).tdiv 8) ≤ src.Dims.SizeRow := by
      have h := hX1.2.2
      omega
    have hse2 : src.Dims.Width * ((bitsPerPixel f.In + 7).tdiv 8) ≤ src.Dims.SizeRow := by
      have h := hX2.2.2
      omega
    have hfit1 : r.MaxX.toNat * inB ≤ src.Dims.SizeRow.toNat := by
      have hle := hse1
      rw [hinB, hMaxXc] at hle
      have hcast : ((r.MaxX.toNat * inB : Nat) : Int)
          = ((r.MaxX.toNat : Nat) : Int) * ((inB : Nat) : Int) := by push_cast; ring
      omega
    have hfit2 : src.Dims.Width.toNat * inB ≤ src.Dims.SizeRow.toNat := by
      have hle := hse2
      rw [hinB, hWc] at hle
      have hcast : ((src.Dims.Width.toNat * inB : Nat) : Int)
          = ((src.Dims.Width.toNat : Nat) : Int) * ((inB : Nat) : Int) := by push_cast; ring
      omega
    have hoff1 : ∀ i : Nat, ((((r.MinY.toNat + i) * src.Dims.Stride.toNat : Nat)) : Int)
        = (r.MinY + (i : Int)) * src.Dims.Stride := by
      intro i
      push_cast
      rw [← hMinYc, ← hssc]
    have hoff2 : ∀ i : Nat, (((((0 : Int).toNat + i) * src.Dims.Stride.toNat : Nat)) : Int)
        = ((0 : Int) + (i : Int)) * src.Dims.Stride := by
      intro i
      simp only [Int.toNat_zero, Nat.zero_add]
      push_cast
      rw [← hssc]
      ring
    have hrun1 := processRows_stream_run_int fn src.ReadAt src.Dims.Stride src.Dims.SizeRow
      (r.MinX * ((bitsPerPixel f.In + 7).tdiv 8)) (r.MaxX * ((bitsPerPixel f.In + 7).tdiv 8))
      (pfOutDims f src.Dims (some r)).Stride r.MinY ((r.MaxY - r.MinY).toNat)
      (le_of_lt hSpos) hX1.1 hX1.2.1 hse1 hOS1nn (by omega)
      (fun y => pointMapN g inB (r.MaxX.toNat - r.MinX.toNat)
        ((((src.ReadAt src.Dims.SizeRow.toNat ((y * src.Dims.Stride.toNat : Nat) : Int)).1.take
          src.Dims.SizeRow.toNat).drop
          (r.MinX.toNat * inB)).take ((r.MaxX.toNat - r.MinX.toNat) * inB)))
      (fun y => by rw [hOS1N]; exact pointMapN_length g inB outB hg _ _)
      (fun y hy => hctr _ _ hy)
      (fun y dOld hrd hd => by
        rw [hsaN1, hseN1,
          show r.MaxX.toNat * inB - r.MinX.toNat * inB
            = (r.MaxX.toNat - r.MinX.toNat) * inB from by rw [Nat.sub_mul]]
        apply hfnPP
        have hdlen : ((src.ReadAt src.Dims.SizeRow.toNat
            ((y * src.Dims.Stride.toNat : Nat) : Int)).1.take src.Dims.SizeRow.toNat).length
            = src.Dims.SizeRow.toNat := by
          rw [List.length_take, hctr _ _ hrd, Nat.min_self]
        simp only [List.length_take, List.length_drop, hdlen]
        omega)
      c1 (List.replicate src.Dims.SizeRow.toNat 0) (by simp) hmem1
      (fun i hi => by
        rw [hoff1 i]
        exact hbd1.1 i hi)
    have hrun2 := processRows_stream_run_int fn src.ReadAt src.Dims.Stride src.Dims.SizeRow
      ((0 : Int) * ((bitsPerPixel f.In + 7).tdiv 8))
      (src.Dims.Width * ((bitsPerPixel f.In + 7).tdiv 8))
      (pfOutDims f src.Dims none).Stride 0 (((src.Dims.Height : Int) - 0).toNat)
      (le_of_lt hSpos) hX2.1 hX2.2.1 hse2 hOS2nn le_rfl
      (fun y => pointMapN g inB src.Dims.Width.toNat
        (((src.ReadAt src.Dims.SizeRow.toNat ((y * src.Dims.Stride.toNat : Nat) : Int)).1.take
          src.Dims.SizeRow.toNat).take (src.Dims.Width.toNat * inB)))
      (fun y => by rw [hOS2N]; exact pointMapN_length g inB outB hg _ _)
      (fun y hy => hctr _ _ hy)
      (fun y dOld hrd hd => by
        rw [hsaN2, hseN2]
        simp only [List.drop_zero, Nat.sub_zero]
        apply hfnPP
        have hdlen : ((src.ReadAt src.Dims.SizeRow.toNat
            ((y * src.Dims.Stride.toNat : Nat) : Int)).1.take src.Dims.SizeRow.toNat).length
            = src.Dims.SizeRow.toNat := by
          rw [List.length_take, hctr _ _ hrd, Nat.min_self]
        simp only [List.length_take, hdlen]
        omega)
      c2 (List.replicate src.Dims.SizeRow.toNat 0) (by simp) hmem2
      (fun i hi => by
        rw [hoff2 i]
        exact hbd2.1 i hi)
    rw [hrun1] at hp1
    rw [hrun2] at hp2
    simp only [Option.some.injEq, Prod.mk.injEq, true_and] at hp1 hp2
    rw [← hp1, ← hp2]
    simp only [Int.toNat_zero, Nat.zero_add]
    rw [show ((r.MaxY : Int) - r.MinY).toNat = r.MaxY.toNat - r.MinY.toNat from by omega,
      show ((src.Dims.Height : Int) - 0).toNat = src.Dims.Height.toNat from by omega,
      show r.Dy.toNat = r.MaxY.toNat - r.MinY.toNat from by unfold Rect.Dy; omega]
    exact extract_pointMap_rows g inB outB hg
      (fun j => (src.ReadAt src.Dims.SizeRow.toNat
        ((j * src.Dims.Stride.toNat : Nat) : Int)).1.take src.Dims.SizeRow.toNat)
      src.Dims.Width.toNat r.MinX.toNat r.MaxX.toNat r.MinY.toNat r.MaxY.toNat
      src.Dims.Height.toNat (by omega) (by omega) (by omega) (by omega)
  case _ =>
    rw [if_pos (by simp [hbft])] at h1 h2
    rcases hBuf : src.Buffer with _ | sb
    case _ =>
      -- streamed source (nil buffer)
      rw [hBuf] at h1 h2
      dsimp only at h1 h2
      have hnb : src.buffered = false ∨ src.Buffer = none := Or.inr hBuf
      have hctr := hcontract hnb
      have hssc : src.Dims.Stride = (src.Dims.Stride.toNat : Int) :=
        (Int.toNat_of_nonneg (by omega)).symm
      have hp1 := finish_ok_inv _ _ _ _ h1
      have hp2 := finish_ok_inv _ _ _ _ h2
      have hbd1 := processRows_stream_ok_facts fn src.ReadAt hctr _ _ _ _ _ _ _ _ _ _ _
        (by simp) hp1
      have hbd2 := processRows_stream_ok_facts fn src.ReadAt hctr _ _ _ _ _ _ _ _ _ _ _
        (by simp) hp2
      have hX1 := hbd1.2 hn1pos
      have hX2 := hbd2.2 hn2pos
      have hse1 : r.MaxX * ((bitsPerPixel f.In + 7).tdiv 8) ≤ src.Dims.SizeRow := by
        have h := hX1.2.2
        omega
      have hse2 : src.Dims.Width * ((bitsPerPixel f.In + 7).tdiv 8) ≤ src.Dims.SizeRow := by
        have h := hX2.2.2
        omega
      have hfit1 : r.MaxX.toNat * inB ≤ src.Dims.SizeRow.toNat := by
        have hle := hse1
        rw [hinB, hMaxXc] at hle
        have hcast : ((r.MaxX.toNat * inB : Nat) : Int)
            = ((r.MaxX.toNat : Nat) : Int) * ((inB : Nat) : Int) := by push_cast; ring
        omega
      have hfit2 : src.Dims.Width.toNat * inB ≤ src.Dims.SizeRow.toNat := by
        have hle := hse2
        rw [hinB, hWc] at hle
        have hcast : ((src.Dims.Width.toNat * inB : Nat) : Int)
            = ((src.Dims.Width.toNat : Nat) : Int) * ((inB : Nat) : Int) := by push_cast; ring
        omega
      have hoff1 : ∀ i : Nat, ((((r.MinY.toNat + i) * src.Dims.Stride.toNat : Nat)) : Int)
          = (r.MinY + (i : Int)) * src.Dims.Stride := by
        intro i
        push_cast
        rw [← hMinYc, ← hssc]
      have hoff2 : ∀ i : Nat, (((((0 : Int).toNat + i) * src.Dims.Stride.toNat : Nat)) : Int)
          = ((0 : Int) + (i : Int)) * src.Dims.Stride := by
        intro i
        simp only [Int.toNat_zero, Nat.zero_add]
        push_cast
        rw [← hssc]
        ring
      have hrun1 := processRows_stream_run_int fn src.ReadAt src.Dims.Stride src.Dims.SizeRow
        (r.MinX * ((bitsPerPixel f.In + 7).tdiv 8)) (r.MaxX * ((bitsPerPixel f.In + 7).tdiv 8))
        (pfOutDims f src.Dims (some r)).Stride r.MinY ((r.MaxY - r.MinY).toNat)
        (le_of_lt hSpos) hX1.1 hX1.2.1 hse1 hOS1nn (by omega)
        (fun y => pointMapN g inB (r.MaxX.toNat - r.MinX.toNat)
          ((((src.ReadAt src.Dims.SizeRow.toNat ((y * src.Dims.Stride.toNat : Nat) : Int)).1.take
            src.Dims.SizeRow.toNat).drop
            (r.MinX.toNat * inB)).take ((r.MaxX.toNat - r.MinX.toNat) * inB)))
        (fun y => by rw [hOS1N]; exact pointMapN_length g inB outB hg _ _)
        (fun y hy => hctr _ _ hy)
        (fun y dOld hrd hd => by
          rw [hsaN1, hseN1,
            show r.MaxX.toNat * inB - r.MinX.toNat * inB
              = (r.MaxX.toNat - r.MinX.toNat) * inB from by rw [Nat.sub_mul]]
          apply hfnPP
          have hdlen : ((src.ReadAt src.Dims.SizeRow.toNat
              ((y * src.Dims.Stride.toNat : Nat) : Int)).1.take src.Dims.SizeRow.toNat).length
              = src.Dims.SizeRow.toNat := by
            rw [List.length_take, hctr _ _ hrd, Nat.min_self]
          simp only [List.length_take, List.length_drop, hdlen]
          omega)
        c1 (List.replicate src.Dims.SizeRow.toNat 0) (by simp) hmem1
        (fun i hi => by
          rw [hoff1 i]
          exact hbd1.1 i hi)
      have hrun2 := processRows_stream_run_int fn src.ReadAt src.Dims.Stride src.Dims.SizeRow
        ((0 : Int) * ((bitsPerPixel f.In + 7).tdiv 8))
        (src.Dims.Width * ((bitsPerPixel f.In + 7).tdiv 8))
        (pfOutDims f src.Dims none).Stride 0 (((src.Dims.Height : Int) - 0).toNat)
        (le_of_lt hSpos) hX2.1 hX2.2.1 hse2 hOS2nn le_rfl
        (fun y => pointMapN g inB src.Dims.Width.toNat
          (((src.ReadAt src.Dims.SizeRow.toNat ((y * src.Dims.Stride.toNat : Nat) : Int)).1.take
            src.Dims.SizeRow.toNat).take (src.Dims.Width.toNat * inB)))
        (fun y => by rw [hOS2N]; exact pointMapN_length g inB outB hg _ _)
        (fun y hy => hctr _ _ hy)
        (fun y dOld hrd hd => by
          rw [hsaN2, hseN2]
          simp only [List.drop_zero, Nat.sub_zero]
          apply hfnPP
          have hdlen : ((src.ReadAt src.Dims.SizeRow.toNat
              ((y * src.Dims.Stride.toNat : Nat) : Int)).1.take src.Dims.SizeRow.toNat).length
              = src.Dims.SizeRow.toNat := by
            rw [List.length_take, hctr _ _ hrd, Nat.min_self]
          simp only [List.length_take, hdlen]
          omega)
        c2 (List.replicate src.Dims.SizeRow.toNat 0) (by simp) hmem2
        (fun i hi => by
          rw [hoff2 i]
          exact hbd2.1 i hi)
      rw [hrun1] at hp1
      rw [hrun2] at hp2
      simp only [Option.some.injEq, Prod.mk.injEq, true_and] at hp1 hp2
      rw [← hp1, ← hp2]
      simp only [Int.toNat_zero, Nat.zero_add]
      rw [show ((r.MaxY : Int) - r.MinY).toNat = r.MaxY.toNat - r.MinY.toNat from by omega,
        show ((src.Dims.Height : Int) - 0).toNat = src.Dims.Height.toNat from by omega,
        show r.Dy.toNat = r.MaxY.toNat - r.MinY.toNat from by unfold Rect.Dy; omega]
      exact extract_pointMap_rows g inB outB hg
        (fun j => (src.ReadAt src.Dims.SizeRow.toNat
          ((j * src.Dims.Stride.toNat : Nat) : Int)).1.take src.Dims.SizeRow.toNat)
        src.Dims.Width.toNat r.MinX.toNat r.MaxX.toNat r.MinY.toNat r.MaxY.toNat
        src.Dims.Height.toNat (by omega) (by omega) (by omega) (by omega)
    case _ =>
      -- buffered resident source
      rw [hBuf] at h1 h2
      dsimp only at h1 h2
      have hp1 := finish_ok_inv _ _ _ _ h1
      have hp2 := finish_ok_inv _ _ _ _ h2
      have hbd1 := (processRows_direct_ok_bounds fn sb _ _ _ _ _ _ _ _ _ _ _ hp1)
      have hbd2 := (processRows_direct_ok_bounds fn sb _ _ _ _ _ _ _ _ _ _ _ hp2)
      have hX1 := hbd1.2 hn1pos
      have hX2 := hbd2.2 hn2pos
      have hfit1 : r.MaxX.toNat * inB ≤ src.Dims.SizeRow.toNat := by
        have hle := hX1.2.2
        rw [hinB, hMaxXc] at hle
        have hcast : ((r.MaxX.toNat * inB : Nat) : Int)
            = ((r.MaxX.toNat : Nat) : Int) * ((inB : Nat) : Int) := by push_cast; ring
        omega
      have hfit2 : src.Dims.Width.toNat * inB ≤ src.Dims.SizeRow.toNat := by
        have hle := hX2.2.2
        rw [hinB, hWc] at hle
        have hcast : ((src.Dims.Width.toNat * inB : Nat) : Int)
            = ((src.Dims.Width.toNat : Nat) : Int) * ((inB : Nat) : Int) := by push_cast; ring
        omega
      have hrun1 := processRows_direct_run_int_cond fn sb src.Dims.Stride src.Dims.SizeRow
        (r.MinX * ((bitsPerPixel f.In + 7).tdiv 8)) (r.MaxX * ((bitsPerPixel f.In + 7).tdiv 8))
        (pfOutDims f src.Dims (some r)).Stride r.MinY ((r.MaxY - r.MinY).toNat)
        (le_of_lt hSpos) hX1.1 hX1.2.1 hX1.2.2 hOS1nn (by omega)
        (fun y => pointMapN g inB (r.MaxX.toNat - r.MinX.toNat)
          ((((sb.drop (y * src.Dims.Stride.toNat)).take src.Dims.SizeRow.toNat).drop
            (r.MinX.toNat * inB)).take ((r.MaxX.toNat - r.MinX.toNat) * inB)))
        (fun y hb => by rw [hOS1N]; exact pointMapN_length g inB outB hg _ _)
        (fun y dOld hb hd => by
          rw [hsaN1, hseN1,
            show r.MaxX.toNat * inB - r.MinX.toNat * inB
              = (r.MaxX.toNat - r.MinX.toNat) * inB from by rw [Nat.sub_mul]]
          apply hfnPP
          have hrowl := length_drop_take sb _ _ hb
          simp only [List.length_take, List.length_drop, hrowl]
          omega)
        c1 (List.replicate src.Dims.SizeRow.toNat 0) hmem1
        (fun i hi => (hbd1.1 i hi).2)
      have hrun2 := processRows_direct_run_int_cond fn sb src.Dims.Stride src.Dims.SizeRow
        ((0 : Int) * ((bitsPerPixel f.In + 7).tdiv 8))
        (src.Dims.Width * ((bitsPerPixel f.In + 7).tdiv 8))
        (pfOutDims f src.Dims none).Stride 0 (((src.Dims.Height : Int) - 0).toNat)
        (le_of_lt hSpos) hX2.1 hX2.2.1 hX2.2.2 hOS2nn le_rfl
        (fun y => pointMapN g inB src.Dims.Width.toNat
          (((sb.drop (y * src.Dims.Stride.toNat)).take src.Dims.SizeRow.toNat).take
            (src.Dims.Width.toNat * inB)))
        (fun y hb => by rw [hOS2N]; exact pointMapN_length g inB outB hg _ _)
        (fun y dOld hb hd => by
          rw [hsaN2, hseN2]
          simp only [List.drop_zero, Nat.sub_zero]
          apply hfnPP
          have hrowl := length_drop_take sb _ _ hb
          simp only [List.length_take, List.length_drop, hrowl]
          omega)
        c2 (List.replicate src.Dims.SizeRow.toNat 0) hmem2
        (fun i hi => (hbd2.1 i hi).2)
      rw [hrun1] at hp1
      rw [hrun2] at hp2
      simp only [Option.some.injEq, Prod.mk.injEq, true_and] at hp1 hp2
      rw [← hp1, ← hp2]
      simp only [Int.toNat_zero, Nat.zero_add]
      rw [show ((r.MaxY : Int) - r.MinY).toNat = r.MaxY.toNat - r.MinY.toNat from by omega,
        show ((src.Dims.Height : Int) - 0).toNat = src.Dims.Height.toNat from by omega,
        show r.Dy.toNat = r.MaxY.toNat - r.MinY.toNat from by unfold Rect.Dy; omega]
      exact extract_pointMap_rows g inB outB hg
        (fun j => (sb.drop (j * src.Dims.Stride.toNat)).take src.Dims.SizeRow.toNat)
        src.Dims.Width.toNat r.MinX.toNat r.MaxX.toNat r.MinY.toNat r.MaxY.toNat
        src.Dims.Height.toNat (by omega) (by omega) (by omega) (by omega)

/-- C4 witness: the ROI-consistency theorem applied to a concrete filter,
image, and region, with both calls' results computed concretely. -/
theorem claim_C4_witness :
    ([42, 42, 42] : List Byte)
      = extractRegion (List.replicate 12 42) (c4src.Dims.Width.toNat * 3)
        (c4r.MinX.toNat * 3) (c4r.MaxX.toNat * 3) c4r.MinY.toNat c4r.Dy.toNat :=
  claim_C4 c4g 3 3 c4f c4fn c4src c4r [0, 0, 0] (List.replicate 12 0)
    [42, 42, 42] (List.replicate 12 42) ⟨1, 1, 3, 1⟩ ⟨2, 2, 6, 1⟩
    rfl (fun _ => rfl)
    (by
      intro d s k h
      simp only [c4fn]
      rw [h, Nat.mul_div_cancel k (by omega)])
    (by decide) (by decide) (by decide) (by decide)
    (fun h => absurd h (by decide))
    rfl rfl

/-- C5 counterexample: on a valid RGB888 image whose stride carries padding,
the in-place invert filter compacts rows to the packed output stride, so a
second in-place application (on the image described by the returned `Dims`,
over the same mutated buffer) does NOT restore the original buffer
byte-for-byte: the padding byte 9 is destroyed and bytes shift. -/
theorem claim_C5_counterexample :
    c5img.Dims.Validate = none ∧
    c5img.Dims.Size ≤ (([0, 0, 0, 9, 1, 2, 3] : List Byte).length : Int) ∧
    NewInvertedPerPixel.Process none c5img none
      = some (.ok (pfOutDims NewInvertedPerPixel c5img.Dims none),
          [255, 255, 255, 254, 253, 252, 3]) ∧
    NewInvertedPerPixel.Process none
        ⟨pfOutDims NewInvertedPerPixel c5img.Dims none, true,
          some [255, 255, 255, 254, 253, 252, 3], c5img.ReadAt⟩ none
      = some (.ok (pfOutDims NewInvertedPerPixel c5img.Dims none),
          [0, 0, 0, 1, 2, 3, 3]) ∧
    ([0, 0, 0, 1, 2, 3, 3] : List Byte) ≠ [0, 0, 0, 9, 1, 2, 3] :=
  ⟨rfl, by decide, rfl, rfl, by decide⟩

/-- C5 (amended): for every packed RGB888 image (stride exactly 3*width,
so rows carry no padding) backed by a buffer of at least the readable
size, applying the byte-inversion filter twice - the second application
consuming the first application's output with its returned `Dims` -
reproduces the original image bytes byte-for-byte, both in-place and with
supplied destinations: a second in-place call restores the source buffer
exactly, and with exact-size supplied destination buffers the second
output equals the source's readable bytes exactly. -/
theorem claim_C5_amended (src : Image) (sb c1 c2 : List Byte)
    (hsh : src.Dims.Shape = ShapeRGB888)
    (hval : src.Dims.Validate = none)
    (hstr : src.Dims.Stride = 3 * src.Dims.Width)
    (hbft : src.buffered = true)
    (hB : src.Buffer = some sb)
    (hsz : src.Dims.Size ≤ (sb.length : Int))
    (hc1 : (c1.length : Int) = src.Dims.Height * (src.Dims.Width * 3))
    (hc2 : (c2.length : Int) = src.Dims.Height * (src.Dims.Width * 3)) :
    ∃ mid out1 : List Byte,
      NewInvertedPerPixel.Process none src none
        = some (.ok (pfOutDims NewInvertedPerPixel src.Dims none), mid) ∧
      NewInvertedPerPixel.Process none
          ⟨pfOutDims NewInvertedPerPixel src.Dims none, true, some mid, src.ReadAt⟩ none
        = some (.ok (pfOutDims NewInvertedPerPixel src.Dims none), sb) ∧
      NewInvertedPerPixel.Process (some c1) src none
        = some (.ok (pfOutDims NewInvertedPerPixel src.Dims none), out1) ∧
      NewInvertedPerPixel.Process (some c2)
          ⟨pfOutDims NewInvertedPerPixel src.Dims none, true, some out1, src.ReadAt⟩ none
        = some (.ok (pfOutDims NewInvertedPerPixel src.Dims none),
            sb.take (src.Dims.Height.toNat * (src.Dims.Width.toNat * 3))) := by
  obtain ⟨hW, hH, hbits, hstride⟩ := (validate_none_iff src.Dims).mp hval
  have hWc : src.Dims.Width = (src.Dims.Width.toNat : Int) :=
    (Int.toNat_of_nonneg (by omega)).symm
  have hHc : src.Dims.Height = (src.Dims.Height.toNat : Int) :=
    (Int.toNat_of_nonneg (by omega)).symm
  have hrow3 : src.Dims.SizeRow = 3 * src.Dims.Width := by
    unfold Dims.SizeRow
    rw [hsh, show bitsPerPixel ShapeRGB888 = 24 from rfl,
      Int.tdiv_eq_ediv (by omega) (by omega)]
    omega
  have hszN : src.Dims.Height.toNat * (src.Dims.Width.toNat * 3) ≤ sb.length := by
    have h2 := size_eq src.Dims hval
    rw [hstr, hrow3] at h2
    have hc : ((src.Dims.Height.toNat * (src.Dims.Width.toNat * 3) : Nat) : Int)
        = (src.Dims.Height - 1) * (3 * src.Dims.Width) + 3 * src.Dims.Width := by
      push_cast
      rw [← hWc, ← hHc]
      ring
    omega
  set L := src.Dims.Width.toNat * 3 with hL
  set HN := src.Dims.Height.toNat with hHN
  set rowsF : Nat → List Byte := fun i =>
    ((sb.drop (i * L)).take L).map (fun v => (255 : Byte) - v) with hrowsF
  set F1 : List Byte := ((List.range HN).map rowsF).flatten with hF1
  set M : List Byte := F1 ++ sb.drop (HN * L) with hM
  have hrowsFlen : ∀ i, i < HN → (rowsF i).length = L := by
    intro i hi
    have hb : i * L + L ≤ sb.length := by
      have h1 := Nat.mul_le_mul_right L (show i + 1 ≤ HN from hi)
      rw [Nat.succ_mul] at h1
      omega
    rw [hrowsF]
    simp only [List.length_map]
    exact length_drop_take sb _ _ hb
  have hF1len : F1.length = HN * L := by
    rw [hF1]
    exact flatten_map_length L rowsF HN hrowsFlen
  have hmidlen : M.length = sb.length := by
    rw [hM, List.length_append, hF1len, List.length_drop]
    omega
  have hd2W : (pfOutDims NewInvertedPerPixel src.Dims none).Width = src.Dims.Width := rfl
  have hd2H : (pfOutDims NewInvertedPerPixel src.Dims none).Height = src.Dims.Height := rfl
  have hd2S : (pfOutDims NewInvertedPerPixel src.Dims none).Stride
      = src.Dims.Width * 3 := rfl
  have hd2Sh : (pfOutDims NewInvertedPerPixel src.Dims none).Shape = ShapeRGB888 := rfl
  have hval2 : (pfOutDims NewInvertedPerPixel src.Dims none).Validate = none := by
    apply (validate_none_iff _).mpr
    refine ⟨by rw [hd2W]; omega, by rw [hd2H]; omega, by rw [hd2Sh]; decide, ?_⟩
    rw [hd2W, hd2S, hd2Sh, show bitsPerPixel ShapeRGB888 = 24 from rfl]
    omega
  have hSR2 : (pfOutDims NewInvertedPerPixel src.Dims none).SizeRow
      = 3 * src.Dims.Width := by
    unfold Dims.SizeRow
    rw [hd2W, hd2Sh, show bitsPerPixel ShapeRGB888 = 24 from rfl,
      Int.tdiv_eq_ediv (by omega) (by omega)]
    omega
  have hstr2 : (pfOutDims NewInvertedPerPixel src.Dims none).Stride
      = 3 * (pfOutDims NewInvertedPerPixel src.Dims none).Width := by
    rw [hd2W, hd2S]
    ring
  have hcHL : ((HN * L : Nat) : Int)
      = (src.Dims.Height - 1) * (src.Dims.Width * 3) + 3 * src.Dims.Width := by
    rw [hHN, hL]
    push_cast
    rw [← hWc, ← hHc]
    ring
  have hsz2 : (pfOutDims NewInvertedPerPixel src.Dims none).Size ≤ (M.length : Int) := by
    have h2 := size_eq (pfOutDims NewInvertedPerPixel src.Dims none) hval2
    rw [hd2H, hd2S, hSR2] at h2
    have hml : (M.length : Int) = (sb.length : Int) := by
      exact_mod_cast congrArg Nat.cast hmidlen
    have hsN : ((HN * L : Nat) : Int) ≤ (sb.length : Int) := by exact_mod_cast hszN
    omega
  have hszF1 : (pfOutDims NewInvertedPerPixel src.Dims none).Size ≤ (F1.length : Int) := by
    have h2 := size_eq (pfOutDims NewInvertedPerPixel src.Dims none) hval2
    rw [hd2H, hd2S, hSR2] at h2
    have hfl : (F1.length : Int) = ((HN * L : Nat) : Int) := by
      exact_mod_cast congrArg Nat.cast hF1len
    omega
  have hdblrow : ∀ i : Nat,
      (rowsF i).map (fun v => (255 : Byte) - v) = (sb.drop (i * L)).take L := by
    intro i
    rw [hrowsF]
    dsimp only
    rw [List.map_map]
    have hid : ∀ a ∈ (sb.drop (i * L)).take L,
        ((fun v => (255 : Byte) - v) ∘ (fun v => (255 : Byte) - v)) a = id a := by
      intro a ha
      simp only [Function.comp_apply, id]
      exact byte_inv_inv a
    rw [List.map_congr_left hid, List.map_id]
  refine ⟨M, F1, inplace_invert_run src sb hsh hval hstr hbft hB hsz, ?_,
    supplied_invert_run src sb c1 hsh hval hstr hbft hB hsz hc1, ?_⟩
  · have h2 := inplace_invert_run
      ⟨pfOutDims NewInvertedPerPixel src.Dims none, true, some M, src.ReadAt⟩ M
      hd2Sh hval2 hstr2 rfl rfl hsz2
    dsimp only at h2
    rw [hd2W, hd2H] at h2
    rw [show pfOutDims NewInvertedPerPixel (pfOutDims NewInvertedPerPixel src.Dims none) none
        = pfOutDims NewInvertedPerPixel src.Dims none from rfl] at h2
    rw [h2]
    have hMrow : ∀ i, i < HN → (M.drop (i * L)).take L = rowsF i := by
      intro i hi
      rw [hM]
      rw [List.drop_append_of_le_length
        (by rw [hF1len]; exact Nat.mul_le_mul_right L (le_of_lt hi))]
      rw [List.take_append_of_le_length (by
        simp only [List.length_drop, hF1len]
        have h1 := Nat.mul_le_mul_right L (show i + 1 ≤ HN from hi)
        rw [Nat.succ_mul] at h1
        omega)]
      rw [hF1]
      exact flatten_row_extract_lt L i rowsF HN hrowsFlen hi
    have hMtail : M.drop (HN * L) = sb.drop (HN * L) := by
      rw [hM]
      rw [List.drop_append_of_le_length (by rw [hF1len])]
      rw [List.drop_eq_nil_of_le (by rw [hF1len]), List.nil_append]
    rw [← hL, ← hHN]
    have hflatten2 : ((List.range HN).map (fun i =>
        ((M.drop (i * L)).take L).map (fun v => (255 : Byte) - v))).flatten
          = sb.take (HN * L) := by
      have hcomb : ∀ i ∈ List.range HN,
          ((M.drop (i * L)).take L).map (fun v => (255 : Byte) - v)
            = (sb.drop (i * L)).take L := by
        intro i hi
        rw [hMrow i (List.mem_range.mp hi)]
        exact hdblrow i
      rw [List.map_congr_left hcomb]
      exact flatten_rows_take L HN sb hszN
    rw [hflatten2, hMtail, List.take_append_drop]
  · have h4 := supplied_invert_run
      ⟨pfOutDims NewInvertedPerPixel src.Dims none, true, some F1, src.ReadAt⟩ F1 c2
      hd2Sh hval2 hstr2 rfl rfl hszF1 hc2
    dsimp only at h4
    rw [hd2W, hd2H] at h4
    rw [show pfOutDims NewInvertedPerPixel (pfOutDims NewInvertedPerPixel src.Dims none) none
        = pfOutDims NewInvertedPerPixel src.Dims none from rfl] at h4
    rw [h4, ← hL, ← hHN]
    have hrow4 : ∀ i, i < HN → (F1.drop (i * L)).take L = rowsF i := by
      intro i hi
      rw [hF1]
      exact flatten_row_extract_lt L i rowsF HN hrowsFlen hi
    have hflat4 : ((List.range HN).map (fun i =>
        ((F1.drop (i * L)).take L).map (fun v => (255 : Byte) - v))).flatten
          = sb.take (HN * L) := by
      have hcomb : ∀ i ∈ List.range HN,
          ((F1.drop (i * L)).take L).map (fun v => (255 : Byte) - v)
            = (sb.drop (i * L)).take L := by
        intro i hi
        rw [hrow4 i (List.mem_range.mp hi)]
        exact hdblrow i
      rw [List.map_congr_left hcomb]
      exact flatten_rows_take L HN sb hszN
    rw [hflat4]

/-- C5 witness: the amended round-trip theorem applied to a concrete 2x2
packed RGB888 image, with in-place and supplied-destination double
applications. -/
theorem claim_C5_witness :
    ∃ mid out1 : List Byte,
      NewInvertedPerPixel.Process none c5wimg none
        = some (.ok (pfOutDims NewInvertedPerPixel c5wimg.Dims none), mid) ∧
      NewInvertedPerPixel.Process none
          ⟨pfOutDims NewInvertedPerPixel c5wimg.Dims none, true, some mid,
            c5wimg.ReadAt⟩ none
        = some (.ok (pfOutDims NewInvertedPerPixel c5wimg.Dims none),
            [1, 2, 3, 4, 5, 6, 7, 8, 9, 10, 11, 12]) ∧
      NewInvertedPerPixel.Process (some (List.replicate 12 0)) c5wimg none
        = some (.ok (pfOutDims NewInvertedPerPixel c5wimg.Dims none), out1) ∧
      NewInvertedPerPixel.Process (some (List.replicate 12 7))
          ⟨pfOutDims NewInvertedPerPixel c5wimg.Dims none, true, some out1,
            c5wimg.ReadAt⟩ none
        = some (.ok (pfOutDims NewInvertedPerPixel c5wimg.Dims none),
            ([1, 2, 3, 4, 5, 6, 7, 8, 9, 10, 11, 12] : List Byte).take
              (c5wimg.Dims.Height.toNat * (c5wimg.Dims.Width.toNat * 3))) :=
  claim_C5_amended c5wimg [1, 2, 3, 4, 5, 6, 7, 8, 9, 10, 11, 12]
    (List.replicate 12 0) (List.replicate 12 7)
    rfl rfl (by decide) rfl rfl (by decide) (by decide) (by decide)

end Pix
